import Mathlib

/-!
# SpatialHashMap (`src/spatial_hashmap.h`)

A shallow embedding of the class template `SpatialHashMap<T>` and of the
properties its specification states about it.

Modelling conventions

* `int` is `Int`; `/` on `int` is `Int.tdiv` (truncation toward zero).  The
  arithmetic of the source is taken inside the 32-bit range, no wrap-around.
* A finite `float` or `double` is the rational number it denotes.  Every
  operation that produces one rounds the exact result to the nearest value of
  the format, ties to even (`roundFloat` for binary32, `roundDouble` for
  binary64): the conversion of an `int`, `-`, `*` and `+`, and `pow(_, 2)`,
  taken as the correctly rounded square.  The conversion of a `float` to `int`
  truncates toward zero.  Infinities and NaN are not modelled: with 32-bit
  `int` operands no operation of the source overflows either format, and a
  `float` radius that does not fit an `int` is undefined behaviour in
  `getPoints`.
* A `std::unordered_map<QPoint, V>` is an association list of its entries;
  `find`, `emplace`, `clear` and `size` are the operations of the same name.
* A member function that can throw returns `Except Failure _`.  A non-const
  member function returns its result together with the object after the call,
  so that what a throwing call did to the object stays visible.
* `T()` is `default`.
-/

deriving instance DecidableEq for Except

namespace SpatialHashMap

/-- The Qt class `QPoint`: a pair of `int` coordinates, compared componentwise. -/
structure QPoint where
  x : Int
  y : Int
deriving DecidableEq, Repr

/-- The source's `struct BoundingBox{ QPoint min, max; }`. -/
structure BoundingBox where
  min : QPoint
  max : QPoint
deriving DecidableEq, Repr

/-- The ways a member function can fail.  The first two are the exception
classes of the source.  `endIteratorDereferenced` is the undefined behaviour of
`find(center)->second` when `find` returns `end()`. -/
inductive Failure where
  | OutOfRangeException
  | UninitialisedException
  | endIteratorDereferenced
deriving DecidableEq, Repr

/-- The source's `enum Space{ _HASHMAP, _WORLD }`. -/
inductive Space where
  | _HASHMAP
  | _WORLD
deriving DecidableEq, Repr

/-! ## `std::unordered_map<QPoint, V>` -/

/-- Member `find(k)`: the mapped value of the entry with key `k`, `none` for `end()`. -/
def find {V : Type} : List (QPoint × V) → QPoint → Option V
  | [], _ => none
  | (k', v) :: m, k => if k' = k then some v else find m k

/-- Member `emplace(k, v)`: inserts the entry unless the key is already present. -/
def emplace {V : Type} (m : List (QPoint × V)) (k : QPoint) (v : V) : List (QPoint × V) :=
  if (find m k).isSome then m else (k, v) :: m

/-- Assignment through `find(k)->second` (the reference a mutable `getCell`
returned, or a non-const iterator): replaces the mapped value of key `k`. -/
def assign {V : Type} : List (QPoint × V) → QPoint → V → List (QPoint × V)
  | [], _, _ => []
  | (k', v') :: m, k, v => if k' = k then (k', v) :: m else (k', v') :: assign m k v

/-- The keys of the entries. -/
def keys {V : Type} (m : List (QPoint × V)) : List QPoint := m.map Prod.fst

end SpatialHashMap

/-- The class `template <class T> class SpatialHashMap : private std::unordered_map<QPoint, T>`.
`cells` is the base-class map, the other fields are the data members. -/
structure SpatialHashMap (T : Type) where
  cells : List (SpatialHashMap.QPoint × T)
  m_initialised_cells : List (SpatialHashMap.QPoint × Bool)
  m_cell_width : Int
  m_cell_height : Int
  m_horizontal_cell_count : Int
  m_vertical_cell_count : Int

namespace SpatialHashMap

variable {T : Type}

/-- The constructor: stores the four parameters, both maps empty. -/
def construct (cell_width cell_height n_horizontal_cells n_vertical_cells : Int) :
    SpatialHashMap T :=
  { cells := [], m_initialised_cells := [],
    m_cell_width := cell_width, m_cell_height := cell_height,
    m_horizontal_cell_count := n_horizontal_cells,
    m_vertical_cell_count := n_vertical_cells }

/-- The four dimension getters (lines 60-63). -/
def getHorizontalCellCount (s : SpatialHashMap T) : Int := s.m_horizontal_cell_count
def getVerticalCellCount (s : SpatialHashMap T) : Int := s.m_vertical_cell_count
def getCellWidth (s : SpatialHashMap T) : Int := s.m_cell_width
def getCellHeight (s : SpatialHashMap T) : Int := s.m_cell_height

/-! ## Binary floating point -/

/-- The number of halvings that take `n` below 2, that is the floor of the
binary logarithm of `n >= 1`; `fuel >= n` is enough. -/
def log2Floor : Nat → Nat → Nat
  | 0, _ => 0
  | fuel + 1, n => if n < 2 then 0 else log2Floor fuel (n / 2) + 1

/-- The floor of the binary logarithm of `|x|`, for `x` other than 0: the `e`
with `2^e <= |x| < 2^(e+1)`.  It is one of the two candidates that the
logarithms of numerator and denominator leave. -/
def floorLog2 (x : ℚ) : Int :=
  let e0 : Int := (log2Floor x.num.natAbs x.num.natAbs : Int) - (log2Floor x.den x.den : Int)
  if (2 : ℚ) ^ e0 ≤ |x| then e0 else e0 - 1

/-- The integer nearest to `y`, the even one of the two when `y` lies half way. -/
def roundNearestEven (y : ℚ) : Int :=
  if y - ⌊y⌋ < 1 / 2 then ⌊y⌋
  else if 1 / 2 < y - ⌊y⌋ then ⌊y⌋ + 1
  else if ⌊y⌋ % 2 = 0 then ⌊y⌋ else ⌊y⌋ + 1

/-- Rounding to a binary format with `precision` significant bits whose
smallest spacing is `2^qmin`: `x` with `2^e <= |x| < 2^(e+1)` goes to the
nearest multiple of `2^(e - (precision-1))` (of `2^qmin` in the subnormal
range), ties to the even multiple. -/
def roundBinary (precision : Nat) (qmin : Int) (x : ℚ) : ℚ :=
  if x = 0 then 0
  else
    let q : Int := max (floorLog2 x - ((precision : Int) - 1)) qmin
    (roundNearestEven (x / 2 ^ q) : ℚ) * 2 ^ q

/-- Rounding to `float` (binary32: 24 significant bits, spacing at least `2^-149`). -/
def roundFloat (x : ℚ) : ℚ := roundBinary 24 (-149) x

/-- Rounding to `double` (binary64: 53 significant bits, spacing at least `2^-1074`). -/
def roundDouble (x : ℚ) : ℚ := roundBinary 53 (-1074) x

/-- The conversion of an `int` to `float`. -/
def intToFloat (n : Int) : ℚ := roundFloat (n : ℚ)

/-- The conversion of a `float` to `int`: truncation toward zero. -/
def floatToInt (x : ℚ) : Int := x.num.tdiv x.den

/-- The `float` difference `a - b`. -/
def floatSub (a b : ℚ) : ℚ := roundFloat (a - b)

/-- The `float` product `a * b`. -/
def floatMul (a b : ℚ) : ℚ := roundFloat (a * b)

/-- The `double` sum `a + b`. -/
def doubleAdd (a b : ℚ) : ℚ := roundDouble (a + b)

/-- The `double` that `pow(n, 2)` returns for an `int` argument `n` (an `int`
converts to `double` exactly). -/
def doubleSquare (n : Int) : ℚ := roundDouble ((n : ℚ) ^ 2)

/-- Member `toHashMapCoordinates` (lines 245-253). -/
def toHashMapCoordinates (s : SpatialHashMap T) (coord : QPoint) : Except Failure QPoint :=
  let ret : QPoint := ⟨coord.x.tdiv s.m_cell_width, coord.y.tdiv s.m_cell_height⟩
  if ret.x < s.m_horizontal_cell_count ∧ ret.y < s.m_vertical_cell_count then
    .ok ret
  else
    .error .OutOfRangeException

/-- Member `get_bounding_box` (lines 227-243).  The four locals are `float`,
initialised from `int` expressions; the upper clamp
`((float) count - 1) * size` is computed in `float`; `std::max` and `std::min`
compare `float`s; the constructor `QPoint(int, int)` converts the results back
to `int`. -/
def get_bounding_box (s : SpatialHashMap T) (p_center : QPoint) (p_radius : Int) :
    Except Failure BoundingBox :=
  let x_min : ℚ := intToFloat (p_center.x - p_radius)
  let x_max : ℚ := intToFloat (p_center.x + p_radius)
  let y_min : ℚ := intToFloat (p_center.y - p_radius)
  let y_max : ℚ := intToFloat (p_center.y + p_radius)
  let mins : QPoint := ⟨floatToInt (max 0 x_min), floatToInt (max 0 y_min)⟩
  let maxs : QPoint :=
    ⟨floatToInt (min (floatMul (floatSub (intToFloat s.getHorizontalCellCount) (intToFloat 1))
        (intToFloat s.getCellWidth)) x_max),
     floatToInt (min (floatMul (floatSub (intToFloat s.getVerticalCellCount) (intToFloat 1))
        (intToFloat s.getCellHeight)) y_max)⟩
  match s.toHashMapCoordinates mins with
  | .error e => .error e
  | .ok bbmin =>
    match s.toHashMapCoordinates maxs with
    | .error e => .error e
    | .ok bbmax => .ok { min := bbmin, max := bbmax }

/-- The values `lo, lo+1, ..` taken by the variable of a loop
`for(int i (lo); i < hi; i++)`. -/
def loopRange (lo hi : Int) : List Int :=
  (List.range (hi - lo).toNat).map (fun i => lo + (i : Int))

/-- The condition of line 76-77 under which a cell is pushed: the two `pow`
are `double`, so is their sum, and it is compared with the `float` product
`p_radius*p_radius`. -/
def cellSelected (s : SpatialHashMap T) (p_center : QPoint) (p_radius : ℚ)
    (center_check : Bool) (x y : Int) : Bool :=
  !center_check ||
    decide (doubleAdd
        (doubleSquare (x * s.m_cell_width + s.m_cell_width.tdiv 2 - p_center.x))
        (doubleSquare (y * s.m_cell_height + s.m_cell_height.tdiv 2 - p_center.y))
      < floatMul p_radius p_radius)

/-- Member `getPoints` (lines 65-93).  `p_radius` is a `float`; the call of
`get_bounding_box`, whose parameter is an `int`, converts it. -/
def getPoints (s : SpatialHashMap T) (p_center : QPoint) (p_radius : ℚ)
    (center_check : Bool) : Except Failure (List QPoint) :=
  match s.get_bounding_box p_center (floatToInt p_radius) with
  | .error e => .error e
  | .ok bb =>
    let ret : List QPoint :=
      (loopRange bb.min.x (min s.m_horizontal_cell_count (bb.max.x + 1))).flatMap fun x =>
        ((loopRange bb.min.y (min s.m_vertical_cell_count (bb.max.y + 1))).filter
          fun y => cellSelected s p_center p_radius center_check x y).map
          fun y => (⟨x, y⟩ : QPoint)
    if ret.length = 0 then
      match s.toHashMapCoordinates p_center with
      | .error e => .error e
      | .ok local_space =>
        if local_space.x < s.m_horizontal_cell_count ∧
            local_space.y < s.m_vertical_cell_count then
          .ok (ret ++ [local_space])
        else
          .ok ret
    else
      .ok ret

/-- Member `init_cell` (lines 256-260). -/
def init_cell [Inhabited T] (s : SpatialHashMap T) (key : QPoint) : SpatialHashMap T :=
  { s with cells := emplace s.cells key default,
           m_initialised_cells := emplace s.m_initialised_cells key true }

/-- The conversion both `getCell` start with: `if(space == _WORLD) center =
toHashMapCoordinates(center)`. -/
def toSpace (s : SpatialHashMap T) (center : QPoint) (space : Space) : Except Failure QPoint :=
  match space with
  | ._WORLD => s.toHashMapCoordinates center
  | ._HASHMAP => .ok center

/-- The mutable `getCell` (lines 95-108): the payload the returned reference
designates, or the failure, and the object after the call. -/
def getCell [Inhabited T] (s : SpatialHashMap T) (center : QPoint) (space : Space) :
    Except Failure T × SpatialHashMap T :=
  match s.toSpace center space with
  | .error e => (.error e, s)
  | .ok center =>
    if center.x < s.m_horizontal_cell_count ∧ center.y < s.m_vertical_cell_count then
      let s' := if (find s.m_initialised_cells center).isNone then s.init_cell center else s
      match find s'.cells center with
      | some v => (.ok v, s')
      | none => (.error .endIteratorDereferenced, s')
    else
      (.error .OutOfRangeException, s)

/-- The read-only `getCell` (lines 110-123). -/
def getCellConst (s : SpatialHashMap T) (center : QPoint) (space : Space) : Except Failure T :=
  match s.toSpace center space with
  | .error e => .error e
  | .ok center =>
    if center.x < s.m_horizontal_cell_count ∧ center.y < s.m_vertical_cell_count then
      if (find s.m_initialised_cells center).isNone then
        .error .UninitialisedException
      else
        match find s.cells center with
        | some v => .ok v
        | none => .error .endIteratorDereferenced
    else
      .error .OutOfRangeException

/-- Writing `v` through the reference that a mutable `getCell` returned for the
grid cell `cell` (or through a non-const iterator at that entry). -/
def writeCell (s : SpatialHashMap T) (cell : QPoint) (v : T) : SpatialHashMap T :=
  { s with cells := assign s.cells cell v }

/-- Member `coversMultipleCells` (lines 174-178). -/
def coversMultipleCells (s : SpatialHashMap T) (center : QPoint) (radius : Int) :
    Except Failure Bool :=
  match s.get_bounding_box center radius with
  | .error e => .error e
  | .ok bb => .ok (decide (bb.min ≠ bb.max))

/-- Member `clear` (lines 200-204). -/
def clear (s : SpatialHashMap T) : SpatialHashMap T :=
  { s with cells := [], m_initialised_cells := [] }

/-- Member `getCellArea` (lines 206-209). -/
def getCellArea (s : SpatialHashMap T) : Int := s.m_cell_height * s.m_cell_width

/-- Member `size` (lines 211-214): the size of the base-class map. -/
def size (s : SpatialHashMap T) : Int := (s.cells.length : Int)

/-- Member `initialised` (lines 216-219). -/
def initialised (s : SpatialHashMap T) (cell : QPoint) : Bool :=
  (find s.m_initialised_cells cell).isSome

/-- Member `ws_initialised` (lines 221-224). -/
def ws_initialised (s : SpatialHashMap T) (ws_coord : QPoint) : Except Failure Bool :=
  match s.toHashMapCoordinates ws_coord with
  | .error e => .error e
  | .ok cell => .ok (s.initialised cell)

/-- The states an object can be in: what the public interface produces from a
constructed object.  The mutating members are the mutable `getCell` (whatever
it returns), assignment to a payload through a returned reference or a
non-const iterator, and `clear`. -/
inductive Reachable [Inhabited T] : SpatialHashMap T → Prop where
  | construct (cw ch nh nv : Int) : Reachable (construct cw ch nh nv)
  | getCell {s : SpatialHashMap T} (c : QPoint) (space : Space) :
      Reachable s → Reachable (s.getCell c space).2
  | writeCell {s : SpatialHashMap T} (c : QPoint) (v : T) :
      Reachable s → Reachable (s.writeCell c v)
  | clear {s : SpatialHashMap T} : Reachable s → Reachable s.clear

/-- The two maps have the same keys. -/
def SameKeys (s : SpatialHashMap T) : Prop :=
  ∀ c : QPoint, (find s.m_initialised_cells c).isSome = (find s.cells c).isSome

/-- The vector `ret` of `getPoints` when its two loops (lines 71-82) are done:
the expression bound to `ret` in `getPoints`, for the bounding box `bb`. -/
def selectedCells (s : SpatialHashMap T) (bb : BoundingBox) (p_center : QPoint)
    (p_radius : ℚ) (center_check : Bool) : List QPoint :=
  (loopRange bb.min.x (min s.m_horizontal_cell_count (bb.max.x + 1))).flatMap fun x =>
    ((loopRange bb.min.y (min s.m_vertical_cell_count (bb.max.y + 1))).filter
      fun y => cellSelected s p_center p_radius center_check x y).map
      fun y => (⟨x, y⟩ : QPoint)

/-- The order of the enumeration: ascending `x`, and ascending `y` for equal `x`. -/
def LexLt (p q : QPoint) : Prop := p.x < q.x ∨ (p.x = q.x ∧ p.y < q.y)

/-- No key occurs twice in either map, as in any `std::unordered_map`. -/
def UniqueKeys (s : SpatialHashMap T) : Prop :=
  (keys s.cells).Nodup ∧ (keys s.m_initialised_cells).Nodup

/-- The enumeration range of `getPoints` for the bounding box `bb`, in the
words of the specification: `x` in `[bb.min.x, min(horizontalCellCount,
bb.max.x+1))` and `y` in the analogous vertical range. -/
def InEnumerationRange (s : SpatialHashMap T) (bb : BoundingBox) (p : QPoint) : Prop :=
  (bb.min.x ≤ p.x ∧ p.x < min s.m_horizontal_cell_count (bb.max.x + 1)) ∧
  (bb.min.y ≤ p.y ∧ p.y < min s.m_vertical_cell_count (bb.max.y + 1))

/-- The center check in the words of the specification: the squared distance
from the world-space center of the cell `p` (`x*cellWidth + cellWidth/2`,
analogous for `y`, the halving rounded down) to `center` is strictly less than
the square of the radius. -/
def CenterWithinRadius (s : SpatialHashMap T) (center : QPoint) (radius : Int)
    (p : QPoint) : Prop :=
  (p.x * s.m_cell_width + s.m_cell_width / 2 - center.x) ^ 2 +
    (p.y * s.m_cell_height + s.m_cell_height / 2 - center.y) ^ 2 < radius ^ 2

instance (s : SpatialHashMap T) (bb : BoundingBox) (p : QPoint) :
    Decidable (InEnumerationRange s bb p) := by
  unfold InEnumerationRange
  infer_instance

instance (s : SpatialHashMap T) (center : QPoint) (radius : Int) (p : QPoint) :
    Decidable (CenterWithinRadius s center radius p) := by
  unfold CenterWithinRadius
  infer_instance

instance (p q : QPoint) : Decidable (LexLt p q) := by
  unfold LexLt
  infer_instance

/-- The grid of the specification's examples: cells of 10 x 10, 5 x 5 of them,
payloads of type `Nat`. -/
def exampleGrid : SpatialHashMap Nat := construct 10 10 5 5

/-- The example grid after a mutable `getCell((1,2), _HASHMAP)` through whose
result `7` was written. -/
def exampleGridTouched : SpatialHashMap Nat :=
  (exampleGrid.getCell ⟨1, 2⟩ ._HASHMAP).2.writeCell ⟨1, 2⟩ 7

/-- A grid of 16777220 cells of 1 x 1 in one row: its width is just above
`2^24`, the largest magnitude up to which a `float` holds every integer. -/
def wideGrid : SpatialHashMap Nat := construct 1 1 16777220 1

/-- A grid of 2 x 2 cells of 1892 x 3652. -/
def unevenGrid : SpatialHashMap Nat := construct 1892 3652 2 2

/-! ## The association-list model of `std::unordered_map` -/

theorem find_emplace_self_of_none {V : Type} (m : List (QPoint × V)) (k : QPoint) (v : V)
    (h : find m k = none) : find (emplace m k v) k = some v := by
  simp [emplace, h, find]

theorem emplace_of_isSome {V : Type} (m : List (QPoint × V)) (k : QPoint) (v : V)
    (h : (find m k).isSome = true) : emplace m k v = m := by
  simp [emplace, h]

theorem isSome_find_emplace {V : Type} (m : List (QPoint × V)) (k c : QPoint) (v : V) :
    (find (emplace m k v) c).isSome = (decide (k = c) || (find m c).isSome) := by
  unfold emplace
  by_cases h : (find m k).isSome = true
  · by_cases hkc : k = c
    · subst hkc; simp [h]
    · simp [h, hkc]
  · by_cases hkc : k = c
    · subst hkc; simp [h, find]
    · simp [h, hkc, find]

theorem find_emplace_of_ne {V : Type} (m : List (QPoint × V)) (k c : QPoint) (v : V)
    (hkc : k ≠ c) : find (emplace m k v) c = find m c := by
  unfold emplace
  by_cases h : (find m k).isSome = true
  · simp [h]
  · simp [h, hkc, find]

theorem isSome_find_assign {V : Type} (m : List (QPoint × V)) (k c : QPoint) (v : V) :
    (find (assign m k v) c).isSome = (find m c).isSome := by
  induction m with
  | nil => rfl
  | cons e m ih =>
    obtain ⟨k', v'⟩ := e
    by_cases hk : k' = k
    · subst hk
      by_cases hc : k' = c
      · subst hc; simp [assign, find]
      · simp [assign, find, hc]
    · by_cases hc : k' = c
      · subst hc; simp [assign, find, hk]
      · simp [assign, find, hk, hc, ih]

theorem find_assign_self {V : Type} (m : List (QPoint × V)) (k : QPoint) (v : V)
    (h : (find m k).isSome = true) : find (assign m k v) k = some v := by
  induction m with
  | nil => simp [find] at h
  | cons e m ih =>
    obtain ⟨k', v'⟩ := e
    by_cases hk : k' = k
    · simp [assign, find, hk]
    · simp only [find, hk, if_false] at h
      simp [assign, find, hk, ih h]

theorem find_assign_of_ne {V : Type} (m : List (QPoint × V)) (k c : QPoint) (v : V)
    (hkc : k ≠ c) : find (assign m k v) c = find m c := by
  induction m with
  | nil => rfl
  | cons e m ih =>
    obtain ⟨k', v'⟩ := e
    by_cases hk : k' = k
    · subst hk; simp [assign, find, hkc]
    · by_cases hc : k' = c
      · subst hc; simp [assign, find, hk]
      · simp [assign, find, hk, hc, ih]

theorem isSome_find_iff_mem_keys {V : Type} (m : List (QPoint × V)) (c : QPoint) :
    (find m c).isSome = true ↔ c ∈ keys m := by
  induction m with
  | nil => simp [find, keys]
  | cons e m ih =>
    obtain ⟨k', v'⟩ := e
    by_cases hc : k' = c
    · simp [find, keys, hc]
    · have hc' : ¬ c = k' := fun h => hc h.symm
      simpa [find, keys, hc, hc'] using ih

/-! ## The invariant of the two maps -/

theorem sameKeys_construct (cw ch nh nv : Int) :
    SameKeys (construct cw ch nh nv : SpatialHashMap T) := by
  intro c; rfl

theorem sameKeys_init_cell [Inhabited T] (s : SpatialHashMap T) (k : QPoint)
    (h : SameKeys s) : SameKeys (s.init_cell k) := by
  intro c
  simp only [init_cell, isSome_find_emplace, h c]

theorem sameKeys_getCell [Inhabited T] (s : SpatialHashMap T) (c : QPoint) (space : Space)
    (h : SameKeys s) : SameKeys (s.getCell c space).2 := by
  unfold getCell
  cases hts : s.toSpace c space with
  | error e => exact h
  | ok g =>
    simp only
    split_ifs with hb hi
    · have h2 := sameKeys_init_cell s g h
      split <;> exact h2
    · split <;> exact h
    · exact h

theorem sameKeys_writeCell (s : SpatialHashMap T) (c : QPoint) (v : T)
    (h : SameKeys s) : SameKeys (s.writeCell c v) := by
  intro d
  simp only [writeCell, isSome_find_assign]
  exact h d

theorem sameKeys_clear (s : SpatialHashMap T) : SameKeys s.clear := by
  intro c; rfl

theorem sameKeys_of_reachable [Inhabited T] {s : SpatialHashMap T} (h : Reachable s) :
    SameKeys s := by
  induction h with
  | construct cw ch nh nv => exact sameKeys_construct cw ch nh nv
  | getCell c space _ ih => exact sameKeys_getCell _ c space ih
  | writeCell c v _ ih => exact sameKeys_writeCell _ c v ih
  | clear _ _ => exact sameKeys_clear _

/-! ## What the two `getCell` do on a converted coordinate -/

theorem getCell_of_not_initialised [Inhabited T] (s : SpatialHashMap T) (c g : QPoint)
    (space : Space) (hs : SameKeys s) (hts : s.toSpace c space = .ok g)
    (hx : g.x < s.m_horizontal_cell_count) (hy : g.y < s.m_vertical_cell_count)
    (hi : s.initialised g = false) :
    s.getCell c space = (.ok default, s.init_cell g) := by
  have hm : find s.m_initialised_cells g = none := by
    simpa [initialised] using hi
  have hc : find s.cells g = none := by
    have := hs g
    rw [hm] at this
    simpa using this.symm
  have hf : find (s.init_cell g).cells g = some default :=
    find_emplace_self_of_none s.cells g default hc
  simp [getCell, hts, hx, hy, hm, hf]

theorem getCell_of_initialised [Inhabited T] (s : SpatialHashMap T) (c g : QPoint)
    (space : Space) (hs : SameKeys s) (hts : s.toSpace c space = .ok g)
    (hx : g.x < s.m_horizontal_cell_count) (hy : g.y < s.m_vertical_cell_count)
    (hi : s.initialised g = true) :
    ∃ v, find s.cells g = some v ∧ s.getCell c space = (.ok v, s) := by
  have hm : (find s.m_initialised_cells g).isSome = true := hi
  have hc : (find s.cells g).isSome = true := by rw [← hs g]; exact hm
  obtain ⟨v, hv⟩ := Option.isSome_iff_exists.mp hc
  refine ⟨v, hv, ?_⟩
  have hn : (find s.m_initialised_cells g).isNone = false := by
    cases hf : find s.m_initialised_cells g with
    | none => rw [hf] at hm; cases hm
    | some b => rfl
  simp [getCell, hts, hx, hy, hn, hv]

theorem getCellConst_of_not_initialised (s : SpatialHashMap T) (c g : QPoint)
    (space : Space) (hts : s.toSpace c space = .ok g)
    (hx : g.x < s.m_horizontal_cell_count) (hy : g.y < s.m_vertical_cell_count)
    (hi : s.initialised g = false) :
    s.getCellConst c space = .error .UninitialisedException := by
  have hm : find s.m_initialised_cells g = none := by
    simpa [initialised] using hi
  simp [getCellConst, hts, hx, hy, hm]

theorem getCellConst_of_initialised (s : SpatialHashMap T) (c g : QPoint)
    (space : Space) (hs : SameKeys s) (hts : s.toSpace c space = .ok g)
    (hx : g.x < s.m_horizontal_cell_count) (hy : g.y < s.m_vertical_cell_count)
    (hi : s.initialised g = true) :
    ∃ v, find s.cells g = some v ∧ s.getCellConst c space = .ok v := by
  have hm : (find s.m_initialised_cells g).isSome = true := hi
  have hc : (find s.cells g).isSome = true := by rw [← hs g]; exact hm
  obtain ⟨v, hv⟩ := Option.isSome_iff_exists.mp hc
  refine ⟨v, hv, ?_⟩
  have hn : (find s.m_initialised_cells g).isNone = false := by
    cases hf : find s.m_initialised_cells g with
    | none => rw [hf] at hm; cases hm
    | some b => rfl
  simp [getCellConst, hts, hx, hy, hn, hv]

theorem getCell_of_out_of_range [Inhabited T] (s : SpatialHashMap T) (c g : QPoint)
    (space : Space) (hts : s.toSpace c space = .ok g)
    (h : s.m_horizontal_cell_count ≤ g.x ∨ s.m_vertical_cell_count ≤ g.y) :
    s.getCell c space = (.error .OutOfRangeException, s) := by
  have hb : ¬ (g.x < s.m_horizontal_cell_count ∧ g.y < s.m_vertical_cell_count) := by
    rintro ⟨h1, h2⟩; rcases h with h | h <;> omega
  simp [getCell, hts, hb]

theorem getCellConst_of_out_of_range (s : SpatialHashMap T) (c g : QPoint)
    (space : Space) (hts : s.toSpace c space = .ok g)
    (h : s.m_horizontal_cell_count ≤ g.x ∨ s.m_vertical_cell_count ≤ g.y) :
    s.getCellConst c space = .error .OutOfRangeException := by
  have hb : ¬ (g.x < s.m_horizontal_cell_count ∧ g.y < s.m_vertical_cell_count) := by
    rintro ⟨h1, h2⟩; rcases h with h | h <;> omega
  simp [getCellConst, hts, hb]

theorem initialised_init_cell_self [Inhabited T] (s : SpatialHashMap T) (g : QPoint) :
    (s.init_cell g).initialised g = true := by
  simp [initialised, init_cell, isSome_find_emplace]

theorem initialised_writeCell (s : SpatialHashMap T) (c d : QPoint) (v : T) :
    (s.writeCell c v).initialised d = s.initialised d := rfl

theorem getCellConst_of_find (s : SpatialHashMap T) (c g : QPoint) (space : Space) (v : T)
    (hts : s.toSpace c space = .ok g)
    (hx : g.x < s.m_horizontal_cell_count) (hy : g.y < s.m_vertical_cell_count)
    (hi : s.initialised g = true) (hv : find s.cells g = some v) :
    s.getCellConst c space = .ok v := by
  have hm : (find s.m_initialised_cells g).isSome = true := hi
  have hn : (find s.m_initialised_cells g).isNone = false := by
    cases hf : find s.m_initialised_cells g with
    | none => rw [hf] at hm; cases hm
    | some b => rfl
  simp [getCellConst, hts, hx, hy, hn, hv]

theorem reachable_exampleGrid : Reachable exampleGrid := Reachable.construct 10 10 5 5

theorem reachable_exampleGridTouched : Reachable exampleGridTouched :=
  Reachable.writeCell ⟨1, 2⟩ 7 (Reachable.getCell ⟨1, 2⟩ ._HASHMAP reachable_exampleGrid)

/-! ## Truncating division and the world-to-grid conversion -/

theorem tdiv_lt_of_lt_mul (w cw n : Int) (hcw : 0 < cw) (hn : 0 < n) (h : w < n * cw) :
    w.tdiv cw < n := by
  rcases lt_or_le w 0 with hw | hw
  · have h1 : 0 ≤ (-w).tdiv cw := Int.tdiv_nonneg (by omega) (by omega)
    rw [Int.neg_tdiv] at h1
    omega
  · rw [Int.tdiv_eq_ediv hw (by omega)]
    exact Int.ediv_lt_of_lt_mul hcw h

theorem toHashMapCoordinates_of_lt (s : SpatialHashMap T)
    (hcw : 0 < s.m_cell_width) (hch : 0 < s.m_cell_height)
    (hnh : 0 < s.m_horizontal_cell_count) (hnv : 0 < s.m_vertical_cell_count)
    (w : QPoint) (hx : w.x < s.m_horizontal_cell_count * s.m_cell_width)
    (hy : w.y < s.m_vertical_cell_count * s.m_cell_height) :
    s.toHashMapCoordinates w = .ok ⟨w.x.tdiv s.m_cell_width, w.y.tdiv s.m_cell_height⟩ := by
  have h1 := tdiv_lt_of_lt_mul w.x _ _ hcw hnh hx
  have h2 := tdiv_lt_of_lt_mul w.y _ _ hch hnv hy
  simp [toHashMapCoordinates, h1, h2]

theorem tdiv_min_clamp (w cw n : Int) (hcw : 0 < cw) (hw : 0 ≤ w) (h : w < n * cw) :
    (min ((n - 1) * cw) w).tdiv cw = w.tdiv cw := by
  rcases le_total w ((n - 1) * cw) with hle | hle
  · rw [min_eq_right hle]
  · rw [min_eq_left hle, Int.mul_tdiv_cancel _ (by omega), Int.tdiv_eq_ediv hw (by omega)]
    have h1 : w / cw < n := Int.ediv_lt_of_lt_mul hcw h
    have h2 : n - 1 ≤ w / cw := Int.le_ediv_of_mul_le hcw hle
    omega

/-! ## Rounding: what is exact and what is monotone -/

theorem pow_log2Floor_le (fuel n : Nat) (h1 : 1 ≤ n) (h2 : n ≤ fuel) :
    2 ^ log2Floor fuel n ≤ n := by
  induction fuel generalizing n with
  | zero => omega
  | succ f ih =>
    unfold log2Floor
    by_cases h : n < 2
    · simp [h]; omega
    · simp only [h, if_false]
      have := ih (n / 2) (by omega) (by omega)
      rw [pow_succ]
      omega

theorem zpow_floorLog2_intCast_le (n : Int) (hn : n ≠ 0) :
    (2 : ℚ) ^ floorLog2 (n : ℚ) ≤ |(n : ℚ)| := by
  unfold floorLog2
  simp only [Rat.num_intCast, Rat.den_intCast]
  split_ifs with h
  · exact h
  · exfalso
    apply h
    have h1 : log2Floor 1 1 = 0 := by decide
    have h2 := pow_log2Floor_le n.natAbs n.natAbs (by omega) le_rfl
    rw [h1]
    simp only [Nat.cast_zero, sub_zero, zpow_natCast]
    have h3 : ((2 ^ log2Floor n.natAbs n.natAbs : Nat) : ℚ) ≤ ((n.natAbs : Nat) : ℚ) := by
      exact_mod_cast h2
    have h4 : ((n.natAbs : Nat) : ℚ) = |(n : ℚ)| := by
      rw [Nat.cast_natAbs, Int.cast_abs]
    rw [← h4]
    simpa using h3

theorem roundNearestEven_intCast (k : Int) : roundNearestEven (k : ℚ) = k := by
  simp [roundNearestEven]

theorem le_roundNearestEven (y : ℚ) (m : Int) (h : (m : ℚ) ≤ y) : m ≤ roundNearestEven y := by
  have hf : m ≤ ⌊y⌋ := Int.le_floor.mpr h
  unfold roundNearestEven
  split_ifs <;> omega

theorem roundNearestEven_nonpos (y : ℚ) (h : y ≤ 0) : roundNearestEven y ≤ 0 := by
  have hf : ⌊y⌋ ≤ 0 := by
    have := Int.floor_le y
    have h2 : ((⌊y⌋ : Int) : ℚ) ≤ ((0 : Int) : ℚ) := by push_cast; linarith
    exact_mod_cast h2
  have hlt : ⌊y⌋ + 1 ≤ 0 ∨ y - ⌊y⌋ < 1 / 2 := by
    by_cases hc : y - ⌊y⌋ < 1 / 2
    · exact Or.inr hc
    · left
      by_contra hn
      have h0 : ⌊y⌋ = 0 := by omega
      rw [h0] at hc
      apply hc
      push_cast
      linarith
  unfold roundNearestEven
  rcases hlt with h1 | h1
  · split_ifs <;> omega
  · rw [if_pos h1]; exact hf

theorem roundBinary_nonpos (p : Nat) (qmin : Int) (x : ℚ) (hx : x ≤ 0) :
    roundBinary p qmin x ≤ 0 := by
  unfold roundBinary
  split_ifs with h0
  · exact le_rfl
  · simp only
    have hpos : (0 : ℚ) < 2 ^ (max (floorLog2 x - ((p : Int) - 1)) qmin) := zpow_pos (by norm_num) _
    have hy : x / 2 ^ (max (floorLog2 x - ((p : Int) - 1)) qmin) ≤ 0 :=
      div_nonpos_of_nonpos_of_nonneg hx hpos.le
    have hr := roundNearestEven_nonpos _ hy
    have hr' : ((roundNearestEven (x / 2 ^ (max (floorLog2 x - ((p : Int) - 1)) qmin)) : Int) : ℚ) ≤ 0 := by
      exact_mod_cast hr
    exact mul_nonpos_of_nonpos_of_nonneg hr' hpos.le

theorem roundNearestEven_div_zpow_of_nonpos (n q : Int) (hq : q ≤ 0) :
    (roundNearestEven ((n : ℚ) / 2 ^ q) : ℚ) * 2 ^ q = n := by
  obtain ⟨k, rfl⟩ : ∃ k : Nat, q = -(k : Int) := ⟨q.natAbs, by omega⟩
  have h2 : ((2 : ℚ) ^ k) ≠ 0 := pow_ne_zero _ (by norm_num)
  have e1 : (n : ℚ) / 2 ^ (-(k : Int)) = ((n * 2 ^ k : Int) : ℚ) := by
    rw [zpow_neg, zpow_natCast]
    push_cast
    field_simp
  rw [e1, roundNearestEven_intCast, zpow_neg, zpow_natCast]
  push_cast
  field_simp

theorem roundBinary_intCast (p : Nat) (qmin : Int) (n : Int) (hq : qmin ≤ 0)
    (h : |n| < 2 ^ p) : roundBinary p qmin (n : ℚ) = n := by
  unfold roundBinary
  by_cases h0 : n = 0
  · simp [h0]
  · have hne : (n : ℚ) ≠ 0 := by exact_mod_cast h0
    rw [if_neg hne]
    simp only
    have he := zpow_floorLog2_intCast_le n h0
    have hlt : |(n : ℚ)| < (2 : ℚ) ^ (p : Int) := by
      rw [zpow_natCast]
      exact_mod_cast h
    have he2 : floorLog2 (n : ℚ) < (p : Int) :=
      (zpow_lt_zpow_iff_right₀ (by norm_num : (1 : ℚ) < 2)).mp (lt_of_le_of_lt he hlt)
    exact roundNearestEven_div_zpow_of_nonpos n _ (by omega)

theorem roundFloat_intCast (n : Int) (h : |n| ≤ 2 ^ 24) : roundFloat (n : ℚ) = n := by
  rcases lt_or_eq_of_le h with h1 | h1
  · exact roundBinary_intCast 24 (-149) n (by omega) h1
  · have h2 : n = 2 ^ 24 ∨ n = -2 ^ 24 := by
      rcases abs_cases n with ⟨ha, _⟩ | ⟨ha, _⟩ <;> omega
    rcases h2 with rfl | rfl
    · decide!
    · decide!

theorem le_roundFloat_intCast (n c : Int) (hc : c ≤ 2 ^ 24) (hn0 : 0 ≤ n) (hn : c ≤ n) :
    (c : ℚ) ≤ roundFloat (n : ℚ) := by
  by_cases hsmall : n ≤ 2 ^ 24
  · rw [roundFloat_intCast n (by rw [abs_of_nonneg hn0]; exact hsmall)]
    exact_mod_cast hn
  · have h0 : n ≠ 0 := by omega
    have hne : (n : ℚ) ≠ 0 := by exact_mod_cast h0
    have he := zpow_floorLog2_intCast_le n h0
    unfold roundFloat roundBinary
    rw [if_neg hne]
    simp only
    by_cases hq : max (floorLog2 (n : ℚ) - (((24 : Nat) : Int) - 1)) (-149) ≤ 0
    · rw [roundNearestEven_div_zpow_of_nonpos n _ hq]
      exact_mod_cast hn
    · have hq' : max (floorLog2 (n : ℚ) - (((24 : Nat) : Int) - 1)) (-149)
          = floorLog2 (n : ℚ) - 23 := by
        rw [max_def] at hq ⊢
        split_ifs at hq ⊢ <;> omega
      rw [hq'] at hq ⊢
      have hpos : (0 : ℚ) < 2 ^ (floorLog2 (n : ℚ) - 23) := zpow_pos (by norm_num) _
      have hy : (((2 ^ 23 : Int)) : ℚ) ≤ (n : ℚ) / 2 ^ (floorLog2 (n : ℚ) - 23) := by
        rw [le_div_iff₀ hpos]
        have : ((2 ^ 23 : Int) : ℚ) * 2 ^ (floorLog2 (n : ℚ) - 23) = 2 ^ floorLog2 (n : ℚ) := by
          have e2 : (2 : ℚ) ^ floorLog2 (n : ℚ)
              = 2 ^ (23 : Int) * 2 ^ (floorLog2 (n : ℚ) - 23) := by
            rw [← zpow_add₀ (by norm_num : (2 : ℚ) ≠ 0)]
            congr 1
            ring
          rw [e2]
          norm_num
        rw [this]
        have habs : |(n : ℚ)| = n := abs_of_nonneg (by exact_mod_cast hn0)
        rw [habs] at he
        exact he
      have hr := le_roundNearestEven _ _ hy
      have hr' : ((2 ^ 23 : Int) : ℚ) ≤
          (roundNearestEven ((n : ℚ) / 2 ^ (floorLog2 (n : ℚ) - 23)) : ℚ) := by
        exact_mod_cast hr
      have h24 : (2 : ℚ) ^ (24 : Int) ≤
          ((2 ^ 23 : Int) : ℚ) * 2 ^ (floorLog2 (n : ℚ) - 23) := by
        have e : (2 : ℚ) ^ (24 : Int) = ((2 ^ 23 : Int) : ℚ) * 2 ^ (1 : Int) := by norm_num
        rw [e]
        apply mul_le_mul_of_nonneg_left _ (by norm_num)
        exact zpow_le_zpow_right₀ (by norm_num) (by omega)
      have hc' : (c : ℚ) ≤ (2 : ℚ) ^ (24 : Int) := by
        have h1 : (c : ℚ) ≤ ((2 ^ 24 : Int) : ℚ) := by exact_mod_cast hc
        have h2 : ((2 ^ 24 : Int) : ℚ) = (2 : ℚ) ^ (24 : Int) := by norm_num
        rw [← h2]
        exact h1
      calc (c : ℚ) ≤ (2 : ℚ) ^ (24 : Int) := hc'
        _ ≤ ((2 ^ 23 : Int) : ℚ) * 2 ^ (floorLog2 (n : ℚ) - 23) := h24
        _ ≤ _ := mul_le_mul_of_nonneg_right hr' hpos.le

theorem floatToInt_intCast (n : Int) : floatToInt (n : ℚ) = n := by
  simp [floatToInt]

theorem intToFloat_eq (n : Int) (h : |n| ≤ 2 ^ 24) : intToFloat n = n :=
  roundFloat_intCast n h

theorem floatToInt_nonneg (x : ℚ) (h : 0 ≤ x) : 0 ≤ floatToInt x :=
  Int.tdiv_nonneg (Rat.num_nonneg.mpr h) (Int.ofNat_nonneg _)

theorem floatToInt_max_zero_intToFloat (n : Int) (h : n ≤ 2 ^ 24) :
    floatToInt (max 0 (intToFloat n)) = max 0 n := by
  rcases lt_or_le n 0 with hn | hn
  · have h1 : intToFloat n ≤ 0 :=
      roundBinary_nonpos 24 (-149) (n : ℚ) (by exact_mod_cast hn.le)
    rw [max_eq_left h1, max_eq_left hn.le]
    exact floatToInt_intCast 0
  · rw [intToFloat_eq n (by rw [abs_of_nonneg hn]; exact h)]
    have h1 : (0 : ℚ) ≤ (n : ℚ) := by exact_mod_cast hn
    rw [max_eq_right h1, max_eq_right hn]
    exact floatToInt_intCast n

theorem floatToInt_min_intToFloat (b m : Int) (hb0 : 0 ≤ b) (hb : b ≤ 2 ^ 24) (hm : 0 ≤ m) :
    floatToInt (min (b : ℚ) (intToFloat m)) = min b m := by
  rcases le_or_lt m (2 ^ 24) with h | h
  · rw [intToFloat_eq m (by rw [abs_of_nonneg hm]; exact h)]
    rw [← Int.cast_min]
    exact floatToInt_intCast _
  · have h1 : (b : ℚ) ≤ intToFloat m := le_roundFloat_intCast m b hb hm (by omega)
    rw [min_eq_left h1, min_eq_left (by omega)]
    exact floatToInt_intCast b

theorem upper_clamp_exact (n cw : Int) (hn : 0 < n) (hcw : 0 < cw) (h : n * cw ≤ 2 ^ 24) :
    floatMul (floatSub (intToFloat n) (intToFloat 1)) (intToFloat cw)
      = (((n - 1) * cw : Int) : ℚ) := by
  have h1 : n ≤ n * cw := by nlinarith
  have h2 : cw ≤ n * cw := by nlinarith
  have h3 : (n - 1) * cw ≤ n * cw := by nlinarith
  have h4 : 0 ≤ (n - 1) * cw := Int.mul_nonneg (by omega) (by omega)
  rw [intToFloat_eq n (by rw [abs_of_pos hn]; omega),
    intToFloat_eq 1 (by norm_num),
    intToFloat_eq cw (by rw [abs_of_pos hcw]; omega)]
  unfold floatMul floatSub
  have e1 : (n : ℚ) - ((1 : Int) : ℚ) = ((n - 1 : Int) : ℚ) := by push_cast; ring
  rw [e1, roundFloat_intCast (n - 1) (by rw [abs_of_nonneg (by omega)]; omega)]
  have e2 : ((n - 1 : Int) : ℚ) * (cw : ℚ) = (((n - 1) * cw : Int) : ℚ) := by push_cast; ring
  rw [e2, roundFloat_intCast _ (by rw [abs_of_nonneg h4]; omega)]

theorem floatToInt_intToFloat_of_le (r : Int) (h0 : 0 ≤ r) (h : r ≤ 2 ^ 24) :
    floatToInt (intToFloat r) = r := by
  rw [intToFloat_eq r (by rw [abs_of_nonneg h0]; exact h)]
  exact floatToInt_intCast r

theorem doubleSquare_exact (a : Int) (h : |a| ≤ 2 ^ 24) :
    doubleSquare a = ((a ^ 2 : Int) : ℚ) := by
  have h1 : a ^ 2 ≤ (2 ^ 24) ^ 2 := by
    rw [← sq_abs a]
    exact pow_le_pow_left₀ (abs_nonneg a) h 2
  have h2 : |a ^ 2| < 2 ^ 53 := by
    rw [abs_of_nonneg (sq_nonneg a)]
    calc a ^ 2 ≤ (2 ^ 24) ^ 2 := h1
      _ < 2 ^ 53 := by norm_num
  unfold doubleSquare roundDouble
  have e : (a : ℚ) ^ 2 = ((a ^ 2 : Int) : ℚ) := by push_cast; ring
  rw [e]
  exact roundBinary_intCast 53 (-1074) _ (by omega) h2

theorem doubleAdd_doubleSquare_exact (a b : Int) (ha : |a| ≤ 2 ^ 24) (hb : |b| ≤ 2 ^ 24) :
    doubleAdd (doubleSquare a) (doubleSquare b) = ((a ^ 2 + b ^ 2 : Int) : ℚ) := by
  have h1 : a ^ 2 ≤ (2 ^ 24) ^ 2 := by
    rw [← sq_abs a]
    exact pow_le_pow_left₀ (abs_nonneg a) ha 2
  have h2 : b ^ 2 ≤ (2 ^ 24) ^ 2 := by
    rw [← sq_abs b]
    exact pow_le_pow_left₀ (abs_nonneg b) hb 2
  have h3 : |a ^ 2 + b ^ 2| < 2 ^ 53 := by
    rw [abs_of_nonneg (add_nonneg (sq_nonneg a) (sq_nonneg b))]
    calc a ^ 2 + b ^ 2 ≤ (2 ^ 24) ^ 2 + (2 ^ 24) ^ 2 := add_le_add h1 h2
      _ < 2 ^ 53 := by norm_num
  rw [doubleSquare_exact a ha, doubleSquare_exact b hb]
  unfold doubleAdd roundDouble
  have e : ((a ^ 2 : Int) : ℚ) + ((b ^ 2 : Int) : ℚ) = ((a ^ 2 + b ^ 2 : Int) : ℚ) := by
    push_cast; ring
  rw [e]
  exact roundBinary_intCast 53 (-1074) _ (by omega) h3

/-! ## The loops of `getPoints` -/

theorem loopRange_eq (lo hi : Int) :
    loopRange lo hi = (List.range (hi - lo).toNat).map (fun i : Nat => lo + (i : Int)) := by
  unfold loopRange
  generalize List.range (hi - lo).toNat = l
  induction l with
  | nil => rfl
  | cons a l ih => simpa using ih

theorem mem_loopRange (lo hi x : Int) : x ∈ loopRange lo hi ↔ lo ≤ x ∧ x < hi := by
  simp only [loopRange_eq, List.mem_map, List.mem_range]
  constructor
  · rintro ⟨i, hi', rfl⟩
    omega
  · rintro ⟨h1, h2⟩
    exact ⟨(x - lo).toNat, by omega, by omega⟩

theorem pairwise_loopRange (lo hi : Int) : (loopRange lo hi).Pairwise (· < ·) := by
  rw [loopRange_eq, List.pairwise_map]
  exact (List.pairwise_lt_range _).imp (fun h => by omega)

theorem mem_selectedCells (s : SpatialHashMap T) (bb : BoundingBox) (c : QPoint) (r : ℚ)
    (cc : Bool) (p : QPoint) :
    p ∈ selectedCells s bb c r cc ↔
      (bb.min.x ≤ p.x ∧ p.x < min s.m_horizontal_cell_count (bb.max.x + 1)) ∧
      (bb.min.y ≤ p.y ∧ p.y < min s.m_vertical_cell_count (bb.max.y + 1)) ∧
      cellSelected s c r cc p.x p.y = true := by
  simp only [selectedCells, List.mem_flatMap, List.mem_map, List.mem_filter, mem_loopRange]
  constructor
  · rintro ⟨x, hx, y, ⟨hy, hsel⟩, rfl⟩
    exact ⟨hx, hy, hsel⟩
  · rintro ⟨hx, hy, hsel⟩
    exact ⟨p.x, hx, p.y, ⟨hy, hsel⟩, rfl⟩

theorem pairwise_selectedCells (s : SpatialHashMap T) (bb : BoundingBox) (c : QPoint)
    (r : ℚ) (cc : Bool) : (selectedCells s bb c r cc).Pairwise LexLt := by
  unfold selectedCells
  rw [List.pairwise_flatMap]
  constructor
  · intro x _
    rw [List.pairwise_map]
    exact ((pairwise_loopRange _ _).filter _).imp (fun h => Or.inr ⟨rfl, h⟩)
  · refine (pairwise_loopRange _ _).imp ?_
    intro x1 x2 hlt p hp q hq
    simp only [List.mem_map] at hp hq
    obtain ⟨_, _, rfl⟩ := hp
    obtain ⟨_, _, rfl⟩ := hq
    exact Or.inl hlt

theorem toHashMapCoordinates_ok (s : SpatialHashMap T) (w g : QPoint)
    (h : s.toHashMapCoordinates w = .ok g) :
    g = ⟨w.x.tdiv s.m_cell_width, w.y.tdiv s.m_cell_height⟩ ∧
    g.x < s.m_horizontal_cell_count ∧ g.y < s.m_vertical_cell_count := by
  unfold toHashMapCoordinates at h
  simp only at h
  split_ifs at h with hb
  cases h
  exact ⟨rfl, hb.1, hb.2⟩

theorem toHashMapCoordinates_error (s : SpatialHashMap T) (w : QPoint) (e : Failure)
    (h : s.toHashMapCoordinates w = .error e) : e = .OutOfRangeException := by
  unfold toHashMapCoordinates at h
  simp only at h
  split_ifs at h with hb
  cases h
  rfl

theorem getPoints_of_bounding_box (s : SpatialHashMap T) (c : QPoint) (r : ℚ) (cc : Bool)
    (bb : BoundingBox) (hbb : s.get_bounding_box c (floatToInt r) = .ok bb) :
    s.getPoints c r cc =
      if (selectedCells s bb c r cc).length = 0 then
        match s.toHashMapCoordinates c with
        | .error e => .error e
        | .ok local_space =>
          if local_space.x < s.m_horizontal_cell_count ∧
              local_space.y < s.m_vertical_cell_count then
            .ok (selectedCells s bb c r cc ++ [local_space])
          else
            .ok (selectedCells s bb c r cc)
      else
        .ok (selectedCells s bb c r cc) := by
  unfold getPoints
  rw [hbb]
  rfl

theorem getPoints_of_selected_ne_nil (s : SpatialHashMap T) (c : QPoint) (r : ℚ) (cc : Bool)
    (bb : BoundingBox) (hbb : s.get_bounding_box c (floatToInt r) = .ok bb)
    (hne : selectedCells s bb c r cc ≠ []) :
    s.getPoints c r cc = .ok (selectedCells s bb c r cc) := by
  have hlen : ¬ (selectedCells s bb c r cc).length = 0 := by
    simpa [List.length_eq_zero] using hne
  rw [getPoints_of_bounding_box s c r cc bb hbb, if_neg hlen]

theorem getPoints_of_selected_nil (s : SpatialHashMap T) (c : QPoint) (r : ℚ) (cc : Bool)
    (bb : BoundingBox) (hbb : s.get_bounding_box c (floatToInt r) = .ok bb)
    (hnil : selectedCells s bb c r cc = []) (g : QPoint)
    (hc : s.toHashMapCoordinates c = .ok g) :
    s.getPoints c r cc = .ok [g] := by
  have hlen : (selectedCells s bb c r cc).length = 0 := by simp [hnil]
  obtain ⟨_, h1, h2⟩ := toHashMapCoordinates_ok s c g hc
  rw [getPoints_of_bounding_box s c r cc bb hbb, if_pos hlen, hc]
  simp only
  rw [if_pos ⟨h1, h2⟩, hnil]
  rfl

theorem tdiv_le_tdiv_of_nonneg (a b c : Int) (ha : 0 ≤ a) (hab : a ≤ b) (hc : 0 < c) :
    a.tdiv c ≤ b.tdiv c := by
  rw [Int.tdiv_eq_ediv ha (by omega), Int.tdiv_eq_ediv (by omega) (by omega)]
  exact Int.ediv_le_ediv hc hab

theorem clamp_bounds (c r cw n : Int) (hcw : 0 < cw) (hn : 0 < n) (hc0 : 0 ≤ c)
    (hc : c < n * cw) (hr : 0 ≤ r) :
    0 ≤ (max 0 (c - r)).tdiv cw ∧
    (max 0 (c - r)).tdiv cw ≤ c.tdiv cw ∧
    c.tdiv cw ≤ (min ((n - 1) * cw) (c + r)).tdiv cw ∧
    (min ((n - 1) * cw) (c + r)).tdiv cw < n := by
  have hg : c.tdiv cw < n := tdiv_lt_of_lt_mul c cw n hcw hn hc
  have hpos : 0 ≤ (n - 1) * cw := Int.mul_nonneg (by omega) (by omega)
  refine ⟨Int.tdiv_nonneg (by omega) (by omega),
    tdiv_le_tdiv_of_nonneg _ _ _ (by omega) (by omega) hcw, ?_, ?_⟩
  · rcases le_total (c + r) ((n - 1) * cw) with hle | hle
    · rw [min_eq_right hle]
      exact tdiv_le_tdiv_of_nonneg _ _ _ hc0 (by omega) hcw
    · rw [min_eq_left hle, Int.mul_tdiv_cancel _ (by omega)]
      omega
  · have h1 : (min ((n - 1) * cw) (c + r)).tdiv cw ≤ ((n - 1) * cw).tdiv cw :=
      tdiv_le_tdiv_of_nonneg _ _ _ (by omega) (min_le_left _ _) hcw
    rw [Int.mul_tdiv_cancel _ (by omega)] at h1
    omega

theorem get_bounding_box_ok (s : SpatialHashMap T) (c : QPoint) (r : Int) (bb : BoundingBox)
    (h : s.get_bounding_box c r = .ok bb) :
    (0 < s.m_cell_width → 0 ≤ bb.min.x) ∧ (0 < s.m_cell_height → 0 ≤ bb.min.y) ∧
    bb.min.x < s.m_horizontal_cell_count ∧ bb.min.y < s.m_vertical_cell_count ∧
    bb.max.x < s.m_horizontal_cell_count ∧ bb.max.y < s.m_vertical_cell_count := by
  unfold get_bounding_box at h
  simp only at h
  generalize hmx : floatToInt (max 0 (intToFloat (c.x - r))) = mx at h
  generalize hmy : floatToInt (max 0 (intToFloat (c.y - r))) = my at h
  have hmx0 : 0 ≤ mx := by rw [← hmx]; exact floatToInt_nonneg _ (le_max_left _ _)
  have hmy0 : 0 ≤ my := by rw [← hmy]; exact floatToInt_nonneg _ (le_max_left _ _)
  cases h1 : s.toHashMapCoordinates ⟨mx, my⟩ with
  | error e => rw [h1] at h; cases h
  | ok g1 =>
    rw [h1] at h
    simp only at h
    split at h
    · cases h
    · rename_i g2 h2
      cases h
      obtain ⟨e1, a1, b1⟩ := toHashMapCoordinates_ok s _ g1 h1
      obtain ⟨_, a2, b2⟩ := toHashMapCoordinates_ok s _ g2 h2
      refine ⟨fun hcw => ?_, fun hch => ?_, a1, b1, a2, b2⟩
      · rw [e1]; exact Int.tdiv_nonneg hmx0 hcw.le
      · rw [e1]; exact Int.tdiv_nonneg hmy0 hch.le

theorem get_bounding_box_error (s : SpatialHashMap T) (c : QPoint) (r : Int) (e : Failure)
    (h : s.get_bounding_box c r = .error e) : e = .OutOfRangeException := by
  unfold get_bounding_box at h
  simp only at h
  split at h
  · rename_i e1 h1
    cases h
    exact toHashMapCoordinates_error s _ _ h1
  · split at h
    · rename_i e2 h2
      cases h
      exact toHashMapCoordinates_error s _ _ h2
    · cases h

theorem get_bounding_box_in_bounds (s : SpatialHashMap T)
    (hcw : 0 < s.m_cell_width) (hch : 0 < s.m_cell_height)
    (hnh : 0 < s.m_horizontal_cell_count) (hnv : 0 < s.m_vertical_cell_count)
    (hex : s.m_horizontal_cell_count * s.m_cell_width ≤ 2 ^ 24)
    (hey : s.m_vertical_cell_count * s.m_cell_height ≤ 2 ^ 24)
    (c : QPoint) (r : Int)
    (hx0 : 0 ≤ c.x) (hx : c.x < s.m_horizontal_cell_count * s.m_cell_width)
    (hy0 : 0 ≤ c.y) (hy : c.y < s.m_vertical_cell_count * s.m_cell_height)
    (hr : 0 ≤ r) :
    s.get_bounding_box c r = .ok
      { min := ⟨(max 0 (c.x - r)).tdiv s.m_cell_width,
                (max 0 (c.y - r)).tdiv s.m_cell_height⟩,
        max := ⟨(min ((s.m_horizontal_cell_count - 1) * s.m_cell_width) (c.x + r)).tdiv
                  s.m_cell_width,
                (min ((s.m_vertical_cell_count - 1) * s.m_cell_height) (c.y + r)).tdiv
                  s.m_cell_height⟩ } := by
  obtain ⟨_, ax1, ax2, ax3⟩ := clamp_bounds c.x r _ _ hcw hnh hx0 hx hr
  obtain ⟨_, ay1, ay2, ay3⟩ := clamp_bounds c.y r _ _ hch hnv hy0 hy hr
  have gx : c.x.tdiv s.m_cell_width < s.m_horizontal_cell_count :=
    tdiv_lt_of_lt_mul _ _ _ hcw hnh hx
  have gy : c.y.tdiv s.m_cell_height < s.m_vertical_cell_count :=
    tdiv_lt_of_lt_mul _ _ _ hch hnv hy
  have m1 : (max 0 (c.x - r)).tdiv s.m_cell_width < s.m_horizontal_cell_count := by omega
  have m2 : (max 0 (c.y - r)).tdiv s.m_cell_height < s.m_vertical_cell_count := by omega
  have bx1 : (s.m_horizontal_cell_count - 1) * s.m_cell_width
      ≤ s.m_horizontal_cell_count * s.m_cell_width := by nlinarith
  have by1 : (s.m_vertical_cell_count - 1) * s.m_cell_height
      ≤ s.m_vertical_cell_count * s.m_cell_height := by nlinarith
  have bx0 : 0 ≤ (s.m_horizontal_cell_count - 1) * s.m_cell_width :=
    Int.mul_nonneg (by omega) (by omega)
  have by0 : 0 ≤ (s.m_vertical_cell_count - 1) * s.m_cell_height :=
    Int.mul_nonneg (by omega) (by omega)
  have e1 := floatToInt_max_zero_intToFloat (c.x - r) (by omega)
  have e2 := floatToInt_max_zero_intToFloat (c.y - r) (by omega)
  have k1 := upper_clamp_exact _ _ hnh hcw hex
  have k2 := upper_clamp_exact _ _ hnv hch hey
  have e3 := floatToInt_min_intToFloat _ (c.x + r) bx0 (by omega) (by omega)
  have e4 := floatToInt_min_intToFloat _ (c.y + r) by0 (by omega) (by omega)
  unfold get_bounding_box
  simp only [getHorizontalCellCount, getVerticalCellCount, getCellWidth, getCellHeight]
  rw [e1, e2, k1, k2, e3, e4]
  simp only [toHashMapCoordinates]
  simp [m1, m2, ax3, ay3]

theorem cell_offset_bound (x c cw n : Int) (hcw : 0 < cw) (hx0 : 0 ≤ x) (hx : x < n)
    (hc0 : 0 ≤ c) (hc : c < n * cw) (hex : n * cw ≤ 2 ^ 24) :
    |x * cw + cw.tdiv 2 - c| ≤ 2 ^ 24 := by
  rw [Int.tdiv_eq_ediv hcw.le (by omega)]
  have h1 : x * cw ≤ (n - 1) * cw := by nlinarith
  have h2 : (n - 1) * cw = n * cw - cw := by ring
  have h3 : 0 ≤ x * cw := Int.mul_nonneg hx0 hcw.le
  rw [abs_le]
  constructor <;> omega

theorem cellSelected_false (s : SpatialHashMap T) (c : QPoint) (r : ℚ) (x y : Int) :
    cellSelected s c r false x y = true := rfl

theorem cellSelected_true_of_exact (s : SpatialHashMap T) (c : QPoint) (r : ℚ) (x y : Int)
    (hx : |x * s.m_cell_width + s.m_cell_width.tdiv 2 - c.x| ≤ 2 ^ 24)
    (hy : |y * s.m_cell_height + s.m_cell_height.tdiv 2 - c.y| ≤ 2 ^ 24) :
    cellSelected s c r true x y = true ↔
      (((x * s.m_cell_width + s.m_cell_width.tdiv 2 - c.x) ^ 2 +
        (y * s.m_cell_height + s.m_cell_height.tdiv 2 - c.y) ^ 2 : Int) : ℚ)
        < floatMul r r := by
  simp only [cellSelected, Bool.not_true, Bool.false_or, decide_eq_true_eq]
  rw [doubleAdd_doubleSquare_exact _ _ hx hy]

theorem floatMul_intToFloat_self (r : Int) (h0 : 0 ≤ r) (h : r ≤ 4096) :
    floatMul (intToFloat r) (intToFloat r) = ((r ^ 2 : Int) : ℚ) := by
  have h1 : r ^ 2 ≤ 4096 ^ 2 := pow_le_pow_left₀ h0 h 2
  rw [intToFloat_eq r (by rw [abs_of_nonneg h0]; omega)]
  unfold floatMul
  have e : (r : ℚ) * (r : ℚ) = ((r ^ 2 : Int) : ℚ) := by push_cast; ring
  rw [e]
  exact roundFloat_intCast _ (by rw [abs_of_nonneg (sq_nonneg r)]; omega)

theorem cellSelected_true_iff (s : SpatialHashMap T)
    (hcw : 0 < s.m_cell_width) (hch : 0 < s.m_cell_height) (c : QPoint) (r : Int)
    (hr0 : 0 ≤ r) (hr : r ≤ 4096) (p : QPoint)
    (hx : |p.x * s.m_cell_width + s.m_cell_width.tdiv 2 - c.x| ≤ 2 ^ 24)
    (hy : |p.y * s.m_cell_height + s.m_cell_height.tdiv 2 - c.y| ≤ 2 ^ 24) :
    cellSelected s c (intToFloat r) true p.x p.y = true ↔ CenterWithinRadius s c r p := by
  have e1 : s.m_cell_width.tdiv 2 = s.m_cell_width / 2 :=
    Int.tdiv_eq_ediv (le_of_lt hcw) (by omega)
  have e2 : s.m_cell_height.tdiv 2 = s.m_cell_height / 2 :=
    Int.tdiv_eq_ediv (le_of_lt hch) (by omega)
  rw [cellSelected_true_of_exact s c _ p.x p.y hx hy, floatMul_intToFloat_self r hr0 hr,
    Int.cast_lt, e1, e2]
  rfl

theorem mem_selectedCells_false (s : SpatialHashMap T) (bb : BoundingBox) (c : QPoint)
    (r : ℚ) (p : QPoint) :
    p ∈ selectedCells s bb c r false ↔ InEnumerationRange s bb p := by
  rw [mem_selectedCells]
  simp [InEnumerationRange, cellSelected_false]

theorem offsets_bounded_of_in_range (s : SpatialHashMap T)
    (hcw : 0 < s.m_cell_width) (hch : 0 < s.m_cell_height)
    (hex : s.m_horizontal_cell_count * s.m_cell_width ≤ 2 ^ 24)
    (hey : s.m_vertical_cell_count * s.m_cell_height ≤ 2 ^ 24)
    (c : QPoint) (r : Int)
    (hx0 : 0 ≤ c.x) (hx : c.x < s.m_horizontal_cell_count * s.m_cell_width)
    (hy0 : 0 ≤ c.y) (hy : c.y < s.m_vertical_cell_count * s.m_cell_height)
    (bb : BoundingBox) (hbb : s.get_bounding_box c r = .ok bb) (p : QPoint)
    (hp : InEnumerationRange s bb p) :
    |p.x * s.m_cell_width + s.m_cell_width.tdiv 2 - c.x| ≤ 2 ^ 24 ∧
    |p.y * s.m_cell_height + s.m_cell_height.tdiv 2 - c.y| ≤ 2 ^ 24 := by
  obtain ⟨bx, by0, _, _, _, _⟩ := get_bounding_box_ok s c r bb hbb
  obtain ⟨⟨x1, x2⟩, y1, y2⟩ := hp
  rw [lt_min_iff] at x2 y2
  have px0 : 0 ≤ p.x := le_trans (bx hcw) x1
  have py0 : 0 ≤ p.y := le_trans (by0 hch) y1
  exact ⟨cell_offset_bound p.x c.x _ _ hcw px0 x2.1 hx0 hx hex,
    cell_offset_bound p.y c.y _ _ hch py0 y2.1 hy0 hy hey⟩

theorem mem_selectedCells_true (s : SpatialHashMap T)
    (hcw : 0 < s.m_cell_width) (hch : 0 < s.m_cell_height)
    (hex : s.m_horizontal_cell_count * s.m_cell_width ≤ 2 ^ 24)
    (hey : s.m_vertical_cell_count * s.m_cell_height ≤ 2 ^ 24)
    (c : QPoint) (r : Int) (hr0 : 0 ≤ r) (hr : r ≤ 4096)
    (hx0 : 0 ≤ c.x) (hx : c.x < s.m_horizontal_cell_count * s.m_cell_width)
    (hy0 : 0 ≤ c.y) (hy : c.y < s.m_vertical_cell_count * s.m_cell_height)
    (bb : BoundingBox) (hbb : s.get_bounding_box c r = .ok bb) (p : QPoint) :
    p ∈ selectedCells s bb c (intToFloat r) true ↔
      InEnumerationRange s bb p ∧ CenterWithinRadius s c r p := by
  rw [mem_selectedCells]
  constructor
  · rintro ⟨h1, h2, h3⟩
    have hp : InEnumerationRange s bb p := ⟨h1, h2⟩
    obtain ⟨ox, oy⟩ := offsets_bounded_of_in_range s hcw hch hex hey c r hx0 hx hy0 hy bb hbb p hp
    exact ⟨hp, (cellSelected_true_iff s hcw hch c r hr0 hr p ox oy).mp h3⟩
  · rintro ⟨hp, h3⟩
    obtain ⟨ox, oy⟩ := offsets_bounded_of_in_range s hcw hch hex hey c r hx0 hx hy0 hy bb hbb p hp
    exact ⟨hp.1, hp.2, (cellSelected_true_iff s hcw hch c r hr0 hr p ox oy).mpr h3⟩

theorem lexLt_ne (p q : QPoint) (h : LexLt p q) : p ≠ q := by
  rintro rfl
  rcases h with h | ⟨_, h⟩ <;> omega

theorem nodup_selectedCells (s : SpatialHashMap T) (bb : BoundingBox) (c : QPoint)
    (r : ℚ) (cc : Bool) : (selectedCells s bb c r cc).Nodup :=
  (pairwise_selectedCells s bb c r cc).imp (fun h => lexLt_ne _ _ h)

theorem inEnumerationRange_iff (s : SpatialHashMap T) (c : QPoint) (r : Int)
    (bb : BoundingBox) (hbb : s.get_bounding_box c r = .ok bb) (p : QPoint) :
    InEnumerationRange s bb p ↔
      (bb.min.x ≤ p.x ∧ p.x ≤ bb.max.x) ∧ (bb.min.y ≤ p.y ∧ p.y ≤ bb.max.y) := by
  obtain ⟨_, _, _, _, hx, hy⟩ := get_bounding_box_ok s c r bb hbb
  have e1 : min s.m_horizontal_cell_count (bb.max.x + 1) = bb.max.x + 1 :=
    min_eq_right (by omega)
  have e2 : min s.m_vertical_cell_count (bb.max.y + 1) = bb.max.y + 1 :=
    min_eq_right (by omega)
  simp only [InEnumerationRange, e1, e2, Int.lt_add_one_iff]

theorem keys_assign {V : Type} (m : List (QPoint × V)) (k : QPoint) (v : V) :
    keys (assign m k v) = keys m := by
  induction m with
  | nil => rfl
  | cons e m ih =>
    obtain ⟨k', v'⟩ := e
    by_cases hk : k' = k
    · simp [assign, keys, hk]
    · simp only [assign, hk, if_false, keys, List.map_cons] at ih ⊢
      rw [ih]

theorem nodup_keys_emplace {V : Type} (m : List (QPoint × V)) (k : QPoint) (v : V)
    (h : (keys m).Nodup) : (keys (emplace m k v)).Nodup := by
  unfold emplace
  by_cases hk : (find m k).isSome = true
  · simpa [hk] using h
  · have hnot : k ∉ keys m := fun hmem => hk ((isSome_find_iff_mem_keys m k).mpr hmem)
    simp only [hk, if_false, keys, List.map_cons, Bool.false_eq_true]
    exact List.nodup_cons.mpr ⟨hnot, h⟩

theorem uniqueKeys_init_cell [Inhabited T] (s : SpatialHashMap T) (k : QPoint)
    (h : UniqueKeys s) : UniqueKeys (s.init_cell k) :=
  ⟨nodup_keys_emplace s.cells k default h.1, nodup_keys_emplace s.m_initialised_cells k true h.2⟩

theorem uniqueKeys_getCell [Inhabited T] (s : SpatialHashMap T) (c : QPoint) (space : Space)
    (h : UniqueKeys s) : UniqueKeys (s.getCell c space).2 := by
  unfold getCell
  cases hts : s.toSpace c space with
  | error e => exact h
  | ok g =>
    simp only
    split_ifs with hb hi
    · have h2 := uniqueKeys_init_cell s g h
      split <;> exact h2
    · split <;> exact h
    · exact h

theorem uniqueKeys_of_reachable [Inhabited T] {s : SpatialHashMap T} (h : Reachable s) :
    UniqueKeys s := by
  induction h with
  | construct cw ch nh nv => exact ⟨List.nodup_nil, List.nodup_nil⟩
  | getCell c space _ ih => exact uniqueKeys_getCell _ c space ih
  | writeCell c v _ ih =>
    refine ⟨?_, ih.2⟩
    simp only [writeCell, keys_assign]
    exact ih.1
  | clear _ _ => exact ⟨List.nodup_nil, List.nodup_nil⟩

theorem size_init_cell_of_not_initialised [Inhabited T] (s : SpatialHashMap T) (g : QPoint)
    (hs : SameKeys s) (hi : s.initialised g = false) :
    (s.init_cell g).size = s.size + 1 := by
  have hm : (find s.m_initialised_cells g).isSome = false := hi
  have hc : (find s.cells g).isSome = false := by rw [← hs g]; exact hm
  simp [size, init_cell, emplace, hc]

/-! ## The claims -/

/-- C1. In every state of a grid and for every grid coordinate `c` below the
upper bounds (so for every `c` of the valid range; neither the lower bounds nor
the positivity of the dimensions is needed), the mutable
`getCell(c, _HASHMAP)` returns a payload `v`, the read-only
`getCell(c, _HASHMAP)` on the resulting grid returns exactly `v` (so raises
neither exception), and after writing `w` through the returned reference it
returns `w`. -/
theorem getCell_then_getCellConst [Inhabited T] (s : SpatialHashMap T) (hr : Reachable s)
    (c : QPoint) (hx : c.x < s.m_horizontal_cell_count)
    (hy : c.y < s.m_vertical_cell_count) :
    ∃ v : T, (s.getCell c ._HASHMAP).1 = .ok v ∧
      (s.getCell c ._HASHMAP).2.getCellConst c ._HASHMAP = .ok v ∧
      ∀ w : T, ((s.getCell c ._HASHMAP).2.writeCell c w).getCellConst c ._HASHMAP
        = .ok w := by
  have hs := sameKeys_of_reachable hr
  have key : ∀ (s' : SpatialHashMap T) (v : T),
      s'.m_horizontal_cell_count = s.m_horizontal_cell_count →
      s'.m_vertical_cell_count = s.m_vertical_cell_count →
      s'.initialised c = true → find s'.cells c = some v →
      s'.getCellConst c ._HASHMAP = .ok v ∧
      ∀ w : T, (s'.writeCell c w).getCellConst c ._HASHMAP = .ok w := by
    intro s' v h1 h2 hi hv
    refine ⟨getCellConst_of_find s' c c ._HASHMAP v rfl (h1 ▸ hx) (h2 ▸ hy) hi hv, ?_⟩
    intro w
    refine getCellConst_of_find (s'.writeCell c w) c c ._HASHMAP w rfl (h1 ▸ hx) (h2 ▸ hy) hi ?_
    exact find_assign_self s'.cells c w (by rw [hv]; rfl)
  cases hi : s.initialised c with
  | false =>
    have hg := getCell_of_not_initialised s c c ._HASHMAP hs rfl hx hy hi
    have hc : find s.cells c = none := by
      have h1 : (find s.m_initialised_cells c).isSome = false := hi
      have h2 := hs c
      rw [h1] at h2
      simpa using h2.symm
    refine ⟨default, by rw [hg], ?_⟩
    rw [hg]
    exact key (s.init_cell c) default rfl rfl (initialised_init_cell_self s c)
      (find_emplace_self_of_none s.cells c default hc)
  | true =>
    obtain ⟨v, hv, hg⟩ := getCell_of_initialised s c c ._HASHMAP hs rfl hx hy hi
    refine ⟨v, by rw [hg], ?_⟩
    rw [hg]
    exact key s v rfl rfl hi hv

theorem getCell_then_getCellConst_witness :
    Reachable exampleGridTouched ∧
    (3 : Int) < exampleGridTouched.m_horizontal_cell_count ∧
    (4 : Int) < exampleGridTouched.m_vertical_cell_count ∧
    ∃ v : Nat, (exampleGridTouched.getCell ⟨3, 4⟩ ._HASHMAP).1 = .ok v ∧
      (exampleGridTouched.getCell ⟨3, 4⟩ ._HASHMAP).2.getCellConst ⟨3, 4⟩ ._HASHMAP = .ok v ∧
      ∀ w : Nat, ((exampleGridTouched.getCell ⟨3, 4⟩ ._HASHMAP).2.writeCell ⟨3, 4⟩ w).getCellConst
        ⟨3, 4⟩ ._HASHMAP = .ok w :=
  ⟨reachable_exampleGridTouched, by decide, by decide,
    getCell_then_getCellConst exampleGridTouched reachable_exampleGridTouched ⟨3, 4⟩
      (by decide) (by decide)⟩

/-- C2. Lazy initialisation of the mutable `getCell`: in every state of a grid
and for every grid coordinate `c` below the upper bounds, if `initialised(c)`
is false the call returns `T()` and `initialised(c)` is true afterwards; if
`initialised(c)` is true the call returns the payload stored for `c` and leaves
the grid exactly as it was. -/
theorem getCell_lazy_initialisation [Inhabited T] (s : SpatialHashMap T) (hr : Reachable s)
    (c : QPoint) (hx : c.x < s.m_horizontal_cell_count)
    (hy : c.y < s.m_vertical_cell_count) :
    (s.initialised c = false →
      (s.getCell c ._HASHMAP).1 = .ok default ∧
      (s.getCell c ._HASHMAP).2.initialised c = true) ∧
    (s.initialised c = true →
      ∃ v : T, find s.cells c = some v ∧ s.getCell c ._HASHMAP = (.ok v, s)) := by
  have hs := sameKeys_of_reachable hr
  constructor
  · intro hi
    rw [getCell_of_not_initialised s c c ._HASHMAP hs rfl hx hy hi]
    exact ⟨rfl, initialised_init_cell_self s c⟩
  · intro hi
    exact getCell_of_initialised s c c ._HASHMAP hs rfl hx hy hi

theorem getCell_lazy_initialisation_witness :
    Reachable exampleGridTouched ∧
    (1 : Int) < exampleGridTouched.m_horizontal_cell_count ∧
    (2 : Int) < exampleGridTouched.m_vertical_cell_count ∧
    ((exampleGridTouched.initialised ⟨1, 2⟩ = false →
      (exampleGridTouched.getCell ⟨1, 2⟩ ._HASHMAP).1 = .ok default ∧
      (exampleGridTouched.getCell ⟨1, 2⟩ ._HASHMAP).2.initialised ⟨1, 2⟩ = true) ∧
    (exampleGridTouched.initialised ⟨1, 2⟩ = true →
      ∃ v : Nat, find exampleGridTouched.cells ⟨1, 2⟩ = some v ∧
        exampleGridTouched.getCell ⟨1, 2⟩ ._HASHMAP = (.ok v, exampleGridTouched))) :=
  ⟨reachable_exampleGridTouched, by decide, by decide,
    getCell_lazy_initialisation exampleGridTouched reachable_exampleGridTouched ⟨1, 2⟩
      (by decide) (by decide)⟩

/-- C3. The read-only `getCell` never creates a cell (it is a function of the
grid only): in every state of a grid and for every grid coordinate `c` below
the upper bounds, the read-only `getCell(c, _HASHMAP)` raises
`UninitialisedException` if and only if `initialised(c)` is false, and
otherwise returns the stored payload; on a freshly constructed grid it raises
`UninitialisedException` for every such `c`. -/
theorem getCellConst_uninitialised_iff [Inhabited T] (s : SpatialHashMap T)
    (hr : Reachable s) (c : QPoint) (hx : c.x < s.m_horizontal_cell_count)
    (hy : c.y < s.m_vertical_cell_count) :
    (s.getCellConst c ._HASHMAP = .error .UninitialisedException ↔
      s.initialised c = false) ∧
    (s.initialised c = true →
      ∃ v : T, find s.cells c = some v ∧ s.getCellConst c ._HASHMAP = .ok v) ∧
    (∀ (cw ch nh nv : Int) (d : QPoint), d.x < nh → d.y < nv →
      (construct cw ch nh nv : SpatialHashMap T).getCellConst d ._HASHMAP
        = .error .UninitialisedException) := by
  have hs := sameKeys_of_reachable hr
  refine ⟨⟨?_, ?_⟩, ?_, ?_⟩
  · intro he
    cases hi : s.initialised c with
    | false => rfl
    | true =>
      obtain ⟨v, _, hg⟩ := getCellConst_of_initialised s c c ._HASHMAP hs rfl hx hy hi
      rw [hg] at he
      cases he
  · intro hi
    exact getCellConst_of_not_initialised s c c ._HASHMAP rfl hx hy hi
  · intro hi
    exact getCellConst_of_initialised s c c ._HASHMAP hs rfl hx hy hi
  · intro cw ch nh nv d hdx hdy
    exact getCellConst_of_not_initialised (construct cw ch nh nv) d d ._HASHMAP rfl hdx hdy rfl

theorem getCellConst_uninitialised_iff_witness :
    Reachable exampleGridTouched ∧
    (1 : Int) < exampleGridTouched.m_horizontal_cell_count ∧
    (2 : Int) < exampleGridTouched.m_vertical_cell_count ∧
    ((exampleGridTouched.getCellConst ⟨1, 2⟩ ._HASHMAP = .error .UninitialisedException ↔
      exampleGridTouched.initialised ⟨1, 2⟩ = false) ∧
    (exampleGridTouched.initialised ⟨1, 2⟩ = true →
      ∃ v : Nat, find exampleGridTouched.cells ⟨1, 2⟩ = some v ∧
        exampleGridTouched.getCellConst ⟨1, 2⟩ ._HASHMAP = .ok v) ∧
    (∀ (cw ch nh nv : Int) (d : QPoint), d.x < nh → d.y < nv →
      (construct cw ch nh nv : SpatialHashMap Nat).getCellConst d ._HASHMAP
        = .error .UninitialisedException)) :=
  ⟨reachable_exampleGridTouched, by decide, by decide,
    getCellConst_uninitialised_iff exampleGridTouched reachable_exampleGridTouched ⟨1, 2⟩
      (by decide) (by decide)⟩

/-- C4. Whatever the two maps hold, for every grid coordinate `c` with
`c.x >= horizontalCellCount` or `c.y >= verticalCellCount` the mutable and the
read-only `getCell(c, _HASHMAP)` both raise `OutOfRangeException`, and the
mutable call leaves the grid unchanged. -/
theorem getCell_out_of_range [Inhabited T] (s : SpatialHashMap T) (c : QPoint)
    (h : s.m_horizontal_cell_count ≤ c.x ∨ s.m_vertical_cell_count ≤ c.y) :
    s.getCell c ._HASHMAP = (.error .OutOfRangeException, s) ∧
    s.getCellConst c ._HASHMAP = .error .OutOfRangeException :=
  ⟨getCell_of_out_of_range s c c ._HASHMAP rfl h,
   getCellConst_of_out_of_range s c c ._HASHMAP rfl h⟩

theorem getCell_out_of_range_witness :
    (exampleGridTouched.m_horizontal_cell_count ≤ (5 : Int) ∨
      exampleGridTouched.m_vertical_cell_count ≤ (2 : Int)) ∧
    exampleGridTouched.getCell ⟨5, 2⟩ ._HASHMAP
      = (.error .OutOfRangeException, exampleGridTouched) ∧
    exampleGridTouched.getCellConst ⟨5, 2⟩ ._HASHMAP = .error .OutOfRangeException :=
  ⟨by decide, getCell_out_of_range exampleGridTouched ⟨5, 2⟩ (by decide)⟩

/-- C5, counterexample.  On the example grid the coordinate `(-1, 0)` has a
negative component, yet the mutable `getCell((-1,0), _HASHMAP)` returns `T()`
and creates the cell, and the read-only one raises `UninitialisedException`,
not `OutOfRangeException`. -/
theorem getCell_negative_counterexample :
    (exampleGrid.getCell ⟨-1, 0⟩ ._HASHMAP).1 = .ok 0 ∧
    (exampleGrid.getCell ⟨-1, 0⟩ ._HASHMAP).2.initialised ⟨-1, 0⟩ = true ∧
    (exampleGrid.getCell ⟨-1, 0⟩ ._HASHMAP).2.size = 1 ∧
    exampleGrid.getCellConst ⟨-1, 0⟩ ._HASHMAP = .error .UninitialisedException := by
  decide

/-- C5, amended.  On a grid with positive cell counts, in every state, a grid
coordinate `c` with a negative component is rejected with
`OutOfRangeException`, by the mutable and by the read-only
`getCell(c, _HASHMAP)`, exactly when its other component is at or above its
upper bound.  Otherwise it is not rejected: the mutable `getCell` returns a
payload and `initialised(c)` holds afterwards. -/
theorem getCell_negative_coordinate [Inhabited T] (s : SpatialHashMap T) (hr : Reachable s)
    (hh : 0 < s.m_horizontal_cell_count) (hv : 0 < s.m_vertical_cell_count)
    (c : QPoint) (hneg : c.x < 0 ∨ c.y < 0) :
    ((s.getCell c ._HASHMAP).1 = .error .OutOfRangeException ↔
      (c.x < 0 ∧ s.m_vertical_cell_count ≤ c.y) ∨
      (c.y < 0 ∧ s.m_horizontal_cell_count ≤ c.x)) ∧
    (s.getCellConst c ._HASHMAP = .error .OutOfRangeException ↔
      (c.x < 0 ∧ s.m_vertical_cell_count ≤ c.y) ∨
      (c.y < 0 ∧ s.m_horizontal_cell_count ≤ c.x)) ∧
    (¬ ((c.x < 0 ∧ s.m_vertical_cell_count ≤ c.y) ∨
        (c.y < 0 ∧ s.m_horizontal_cell_count ≤ c.x)) →
      (∃ v : T, (s.getCell c ._HASHMAP).1 = .ok v) ∧
      (s.getCell c ._HASHMAP).2.initialised c = true) := by
  have hs := sameKeys_of_reachable hr
  by_cases hout : s.m_horizontal_cell_count ≤ c.x ∨ s.m_vertical_cell_count ≤ c.y
  · have hrej : (c.x < 0 ∧ s.m_vertical_cell_count ≤ c.y) ∨
        (c.y < 0 ∧ s.m_horizontal_cell_count ≤ c.x) := by
      rcases hout with h | h
      · right; exact ⟨by omega, h⟩
      · left; exact ⟨by omega, h⟩
    rw [getCell_of_out_of_range s c c ._HASHMAP rfl hout,
      getCellConst_of_out_of_range s c c ._HASHMAP rfl hout]
    exact ⟨⟨fun _ => hrej, fun _ => rfl⟩, ⟨fun _ => hrej, fun _ => rfl⟩,
      fun h => absurd hrej h⟩
  · have hx : c.x < s.m_horizontal_cell_count := by omega
    have hy : c.y < s.m_vertical_cell_count := by omega
    have hrej : ¬ ((c.x < 0 ∧ s.m_vertical_cell_count ≤ c.y) ∨
        (c.y < 0 ∧ s.m_horizontal_cell_count ≤ c.x)) := by omega
    have hmut : (∃ v : T, (s.getCell c ._HASHMAP).1 = .ok v) ∧
        (s.getCell c ._HASHMAP).2.initialised c = true := by
      cases hi : s.initialised c with
      | false =>
        rw [getCell_of_not_initialised s c c ._HASHMAP hs rfl hx hy hi]
        exact ⟨⟨default, rfl⟩, initialised_init_cell_self s c⟩
      | true =>
        obtain ⟨v, _, hg⟩ := getCell_of_initialised s c c ._HASHMAP hs rfl hx hy hi
        rw [hg]
        exact ⟨⟨v, rfl⟩, hi⟩
    have hconst : s.getCellConst c ._HASHMAP ≠ .error .OutOfRangeException := by
      cases hi : s.initialised c with
      | false =>
        rw [getCellConst_of_not_initialised s c c ._HASHMAP rfl hx hy hi]
        intro h; cases h
      | true =>
        obtain ⟨v, _, hg⟩ := getCellConst_of_initialised s c c ._HASHMAP hs rfl hx hy hi
        rw [hg]
        intro h; cases h
    refine ⟨⟨fun h => ?_, fun h => absurd h hrej⟩, ⟨fun h => absurd h hconst,
      fun h => absurd h hrej⟩, fun _ => hmut⟩
    obtain ⟨⟨v, hv'⟩, _⟩ := hmut
    rw [hv'] at h
    cases h

theorem getCell_negative_coordinate_witness :
    Reachable exampleGridTouched ∧
    0 < exampleGridTouched.m_horizontal_cell_count ∧
    0 < exampleGridTouched.m_vertical_cell_count ∧
    ((-1 : Int) < 0 ∨ (3 : Int) < 0) ∧
    (((exampleGridTouched.getCell ⟨-1, 3⟩ ._HASHMAP).1 = .error .OutOfRangeException ↔
      ((-1 : Int) < 0 ∧ exampleGridTouched.m_vertical_cell_count ≤ 3) ∨
      ((3 : Int) < 0 ∧ exampleGridTouched.m_horizontal_cell_count ≤ -1)) ∧
    (exampleGridTouched.getCellConst ⟨-1, 3⟩ ._HASHMAP = .error .OutOfRangeException ↔
      ((-1 : Int) < 0 ∧ exampleGridTouched.m_vertical_cell_count ≤ 3) ∨
      ((3 : Int) < 0 ∧ exampleGridTouched.m_horizontal_cell_count ≤ -1)) ∧
    (¬ (((-1 : Int) < 0 ∧ exampleGridTouched.m_vertical_cell_count ≤ 3) ∨
        ((3 : Int) < 0 ∧ exampleGridTouched.m_horizontal_cell_count ≤ -1)) →
      (∃ v : Nat, (exampleGridTouched.getCell ⟨-1, 3⟩ ._HASHMAP).1 = .ok v) ∧
      (exampleGridTouched.getCell ⟨-1, 3⟩ ._HASHMAP).2.initialised ⟨-1, 3⟩ = true)) :=
  ⟨reachable_exampleGridTouched, by decide, by decide, by decide,
    getCell_negative_coordinate exampleGridTouched reachable_exampleGridTouched
      (by decide) (by decide) ⟨-1, 3⟩ (by decide)⟩

/-- C6. `clear()` returns the grid to its just-constructed state: whatever the
state before, after `clear()` the grid is the one the constructor builds from
the same four dimensions, `size()` is 0, `initialised(c)` is false for every
`c`, the read-only `getCell(c, _HASHMAP)` raises `UninitialisedException` for
every `c` below the upper bounds, and the four dimension getters and
`getCellArea()` return what they returned before. -/
theorem clear_returns_to_constructed (s : SpatialHashMap T) :
    s.clear = construct s.m_cell_width s.m_cell_height s.m_horizontal_cell_count
      s.m_vertical_cell_count ∧
    s.clear.size = 0 ∧
    (∀ c : QPoint, s.clear.initialised c = false) ∧
    (∀ c : QPoint, c.x < s.m_horizontal_cell_count → c.y < s.m_vertical_cell_count →
      s.clear.getCellConst c ._HASHMAP = .error .UninitialisedException) ∧
    s.clear.getHorizontalCellCount = s.getHorizontalCellCount ∧
    s.clear.getVerticalCellCount = s.getVerticalCellCount ∧
    s.clear.getCellWidth = s.getCellWidth ∧
    s.clear.getCellHeight = s.getCellHeight ∧
    s.clear.getCellArea = s.getCellArea := by
  refine ⟨rfl, rfl, fun c => rfl, ?_, rfl, rfl, rfl, rfl, rfl⟩
  intro c hx hy
  exact getCellConst_of_not_initialised s.clear c c ._HASHMAP rfl hx hy rfl

/-- C7. Two-collection invariant: in every state reachable from a constructed
grid by mutable `getCell` calls in either space (succeeding or raising),
writes to payloads and `clear` calls, a coordinate is a key of
`m_initialised_cells` if and only if it is a key of the payload map. -/
theorem reachable_same_keys [Inhabited T] (s : SpatialHashMap T) (hr : Reachable s)
    (c : QPoint) : c ∈ keys s.m_initialised_cells ↔ c ∈ keys s.cells := by
  rw [← isSome_find_iff_mem_keys, ← isSome_find_iff_mem_keys, sameKeys_of_reachable hr c]

theorem reachable_same_keys_witness :
    Reachable exampleGridTouched ∧
    ((⟨1, 2⟩ : QPoint) ∈ keys exampleGridTouched.m_initialised_cells ↔
      (⟨1, 2⟩ : QPoint) ∈ keys exampleGridTouched.cells) :=
  ⟨reachable_exampleGridTouched,
    reachable_same_keys exampleGridTouched reachable_exampleGridTouched ⟨1, 2⟩⟩

/-- C8. World-to-grid conversion: on a grid with positive dimensions, for every
world coordinate `w` with `w.x < horizontalCellCount*cellWidth` and
`w.y < verticalCellCount*cellHeight` (negative components included),
`toHashMapCoordinates(w)` does not raise and returns
`(w.x / cellWidth, w.y / cellHeight)`, the division truncating toward zero. -/
theorem toHashMapCoordinates_in_extent (s : SpatialHashMap T)
    (hcw : 0 < s.m_cell_width) (hch : 0 < s.m_cell_height)
    (hnh : 0 < s.m_horizontal_cell_count) (hnv : 0 < s.m_vertical_cell_count)
    (w : QPoint) (hx : w.x < s.m_horizontal_cell_count * s.m_cell_width)
    (hy : w.y < s.m_vertical_cell_count * s.m_cell_height) :
    s.toHashMapCoordinates w = .ok ⟨w.x.tdiv s.m_cell_width, w.y.tdiv s.m_cell_height⟩ :=
  toHashMapCoordinates_of_lt s hcw hch hnh hnv w hx hy

theorem toHashMapCoordinates_in_extent_witness :
    0 < exampleGrid.m_cell_width ∧ 0 < exampleGrid.m_cell_height ∧
    0 < exampleGrid.m_horizontal_cell_count ∧ 0 < exampleGrid.m_vertical_cell_count ∧
    (-27 : Int) < exampleGrid.m_horizontal_cell_count * exampleGrid.m_cell_width ∧
    (49 : Int) < exampleGrid.m_vertical_cell_count * exampleGrid.m_cell_height ∧
    exampleGrid.toHashMapCoordinates ⟨-27, 49⟩
      = .ok ⟨(-27 : Int).tdiv exampleGrid.m_cell_width,
             (49 : Int).tdiv exampleGrid.m_cell_height⟩ :=
  ⟨by decide, by decide, by decide, by decide, by decide, by decide,
    toHashMapCoordinates_in_extent exampleGrid (by decide) (by decide) (by decide)
      (by decide) ⟨-27, 49⟩ (by decide) (by decide)⟩

/-- C9, counterexample.  On the grid of 16777220 cells of 1 x 1, the center
`(16777219, 0)` is in bounds, but `get_bounding_box` holds `center.x - 0` in a
`float`, which rounds 16777219 to 16777220; that world coordinate converts to
the cell 16777220, one past the last, and `coversMultipleCells(center, 0)`
raises `OutOfRangeException`. -/
theorem coversMultipleCells_zero_radius_counterexample :
    (0 < wideGrid.m_cell_width ∧ 0 < wideGrid.m_cell_height ∧
      0 < wideGrid.m_horizontal_cell_count ∧ 0 < wideGrid.m_vertical_cell_count) ∧
    ((0 : Int) ≤ 16777219 ∧
      (16777219 : Int) < wideGrid.m_horizontal_cell_count * wideGrid.m_cell_width ∧
      (0 : Int) ≤ 0 ∧ (0 : Int) < wideGrid.m_vertical_cell_count * wideGrid.m_cell_height) ∧
    intToFloat 16777219 = 16777220 ∧
    wideGrid.coversMultipleCells ⟨16777219, 0⟩ 0 = .error .OutOfRangeException := by
  decide!

/-- C9, amended.  On a grid with positive dimensions whose extents
`horizontalCellCount*cellWidth` and `verticalCellCount*cellHeight` are at most
`2^24`, for every world-space center with
`0 <= center.x < horizontalCellCount*cellWidth` and
`0 <= center.y < verticalCellCount*cellHeight`,
`coversMultipleCells(center, 0)` does not raise and returns false. -/
theorem coversMultipleCells_zero_radius (s : SpatialHashMap T)
    (hcw : 0 < s.m_cell_width) (hch : 0 < s.m_cell_height)
    (hnh : 0 < s.m_horizontal_cell_count) (hnv : 0 < s.m_vertical_cell_count)
    (hex : s.m_horizontal_cell_count * s.m_cell_width ≤ 2 ^ 24)
    (hey : s.m_vertical_cell_count * s.m_cell_height ≤ 2 ^ 24)
    (center : QPoint)
    (hx0 : 0 ≤ center.x) (hx : center.x < s.m_horizontal_cell_count * s.m_cell_width)
    (hy0 : 0 ≤ center.y) (hy : center.y < s.m_vertical_cell_count * s.m_cell_height) :
    s.coversMultipleCells center 0 = .ok false := by
  have hbb := get_bounding_box_in_bounds s hcw hch hnh hnv hex hey center 0 hx0 hx hy0 hy
    le_rfl
  have e1 := tdiv_min_clamp center.x s.m_cell_width s.m_horizontal_cell_count hcw hx0 hx
  have e2 := tdiv_min_clamp center.y s.m_cell_height s.m_vertical_cell_count hch hy0 hy
  have a1 : max 0 (center.x - 0) = center.x := by omega
  have a2 : max 0 (center.y - 0) = center.y := by omega
  simp only [coversMultipleCells, hbb, a1, a2, Int.add_zero, e1, e2]
  simp

theorem coversMultipleCells_zero_radius_witness :
    0 < exampleGrid.m_cell_width ∧ 0 < exampleGrid.m_cell_height ∧
    0 < exampleGrid.m_horizontal_cell_count ∧ 0 < exampleGrid.m_vertical_cell_count ∧
    exampleGrid.m_horizontal_cell_count * exampleGrid.m_cell_width ≤ 2 ^ 24 ∧
    exampleGrid.m_vertical_cell_count * exampleGrid.m_cell_height ≤ 2 ^ 24 ∧
    (0 : Int) ≤ 47 ∧ (47 : Int) < exampleGrid.m_horizontal_cell_count * exampleGrid.m_cell_width ∧
    (0 : Int) ≤ 30 ∧ (30 : Int) < exampleGrid.m_vertical_cell_count * exampleGrid.m_cell_height ∧
    exampleGrid.coversMultipleCells ⟨47, 30⟩ 0 = .ok false :=
  ⟨by decide, by decide, by decide, by decide, by decide, by decide, by decide, by decide,
    by decide, by decide,
    coversMultipleCells_zero_radius exampleGrid (by decide) (by decide) (by decide)
      (by decide) (by decide) (by decide) ⟨47, 30⟩ (by decide) (by decide) (by decide)
      (by decide)⟩

/-- C10, the code at a failing input.  On the example grid the query with
center `(55, 25)`, radius `10` and the center check enabled has the bounding
box `(4,1)..(4,3)`, none of whose cells passes the center check, and the
fallback conversion of the center, which is outside the grid, raises
`OutOfRangeException`: `getPoints` raises instead of returning the empty
sequence.  The same query without the fallback (center check disabled)
returns the three cells. -/
theorem getPoints_raises_on_fallback :
    exampleGrid.get_bounding_box ⟨55, 25⟩ 10 = .ok ⟨⟨4, 1⟩, ⟨4, 3⟩⟩ ∧
    exampleGrid.toHashMapCoordinates ⟨55, 25⟩ = .error .OutOfRangeException ∧
    exampleGrid.getPoints ⟨55, 25⟩ 10 true = .error .OutOfRangeException ∧
    exampleGrid.getPoints ⟨55, 25⟩ 10 false = .ok [⟨4, 1⟩, ⟨4, 2⟩, ⟨4, 3⟩] := by
  decide!

/-- C13. With the center check disabled, whenever `get_bounding_box(center,
radius)` returns `bb` (the `float` radius converted to `int` by the call) and
the enumeration range is not empty, `getPoints` returns a list whose elements
are exactly the `(x, y)` of the enumeration range, each once, strictly
increasing in the order "ascending `x`, then ascending `y`". -/
theorem getPoints_without_center_check (s : SpatialHashMap T) (c : QPoint) (r : ℚ)
    (bb : BoundingBox) (hbb : s.get_bounding_box c (floatToInt r) = .ok bb)
    (hne : ∃ p : QPoint, InEnumerationRange s bb p) :
    ∃ l : List QPoint, s.getPoints c r false = .ok l ∧
      (∀ p : QPoint, p ∈ l ↔
        (bb.min.x ≤ p.x ∧ p.x < min s.m_horizontal_cell_count (bb.max.x + 1)) ∧
        (bb.min.y ≤ p.y ∧ p.y < min s.m_vertical_cell_count (bb.max.y + 1))) ∧
      l.Nodup ∧ l.Pairwise LexLt := by
  obtain ⟨p0, hp0⟩ := hne
  have hmem := (mem_selectedCells_false s bb c r p0).mpr hp0
  exact ⟨_, getPoints_of_selected_ne_nil s c r false bb hbb (List.ne_nil_of_mem hmem),
    fun p => mem_selectedCells_false s bb c r p,
    nodup_selectedCells s bb c r false, pairwise_selectedCells s bb c r false⟩

theorem getPoints_without_center_check_witness :
    exampleGrid.get_bounding_box ⟨25, 25⟩ (floatToInt 5) = .ok ⟨⟨2, 2⟩, ⟨3, 3⟩⟩ ∧
    (∃ p : QPoint, InEnumerationRange exampleGrid ⟨⟨2, 2⟩, ⟨3, 3⟩⟩ p) ∧
    ∃ l : List QPoint, exampleGrid.getPoints ⟨25, 25⟩ 5 false = .ok l ∧
      (∀ p : QPoint, p ∈ l ↔
        ((2 : Int) ≤ p.x ∧ p.x < min exampleGrid.m_horizontal_cell_count ((3 : Int) + 1)) ∧
        ((2 : Int) ≤ p.y ∧ p.y < min exampleGrid.m_vertical_cell_count ((3 : Int) + 1))) ∧
      l.Nodup ∧ l.Pairwise LexLt :=
  ⟨by decide!, ⟨⟨2, 2⟩, by decide⟩,
    getPoints_without_center_check exampleGrid ⟨25, 25⟩ 5 ⟨⟨2, 2⟩, ⟨3, 3⟩⟩ (by decide!)
      ⟨⟨2, 2⟩, by decide⟩⟩

/-- C14, counterexample.  On the grid of 2 x 2 cells of 1892 x 3652, center
`(946, 1826)`, radius `4113`, center check enabled: the cell `(1, 1)` is in the
enumeration range and its cell center is at squared distance
`1892^2 + 3652^2 = 16916768 < 4113^2 = 16916769`, so it satisfies the
condition of the claim; but the `float` product `p_radius*p_radius` rounds
16916769 to 16916768, the comparison of the source fails, and `getPoints`
returns the other three cells only.  And on the grid of 16777220 cells of
1 x 1, for the in-bounds center `(16777218, 0)` and radius `10`, `getPoints`
raises `OutOfRangeException` (the `float` upper clamp rounds to 16777220). -/
theorem getPoints_with_center_check_counterexample :
    intToFloat 4113 = 4113 ∧ floatMul 4113 4113 = 16916768 ∧
    unevenGrid.get_bounding_box ⟨946, 1826⟩ 4113 = .ok ⟨⟨0, 0⟩, ⟨1, 1⟩⟩ ∧
    InEnumerationRange unevenGrid ⟨⟨0, 0⟩, ⟨1, 1⟩⟩ ⟨1, 1⟩ ∧
    CenterWithinRadius unevenGrid ⟨946, 1826⟩ 4113 ⟨1, 1⟩ ∧
    unevenGrid.getPoints ⟨946, 1826⟩ (intToFloat 4113) true
      = .ok [⟨0, 0⟩, ⟨0, 1⟩, ⟨1, 0⟩] ∧
    wideGrid.getPoints ⟨16777218, 0⟩ (intToFloat 10) true = .error .OutOfRangeException := by
  decide!

/-- C14, amended.  With the center check enabled, on a grid with positive
dimensions whose extents `horizontalCellCount*cellWidth` and
`verticalCellCount*cellHeight` are at most `2^24`, for an in-bounds center
without negative component and an integer radius with `0 <= radius <= 4096`:
the bounding box `bb` is computed and `getPoints` returns a list `l`; if some
cell of the enumeration range passes the center check, the elements of `l` are
exactly the cells of the range that pass it, in enumeration order (strictly
increasing); if none passes it, `l` is the one-element list
`[(center.x / cellWidth, center.y / cellHeight)]`. -/
theorem getPoints_with_center_check (s : SpatialHashMap T)
    (hcw : 0 < s.m_cell_width) (hch : 0 < s.m_cell_height)
    (hnh : 0 < s.m_horizontal_cell_count) (hnv : 0 < s.m_vertical_cell_count)
    (hex : s.m_horizontal_cell_count * s.m_cell_width ≤ 2 ^ 24)
    (hey : s.m_vertical_cell_count * s.m_cell_height ≤ 2 ^ 24)
    (c : QPoint)
    (hx0 : 0 ≤ c.x) (hx : c.x < s.m_horizontal_cell_count * s.m_cell_width)
    (hy0 : 0 ≤ c.y) (hy : c.y < s.m_vertical_cell_count * s.m_cell_height)
    (r : Int) (hr : 0 ≤ r) (hr' : r ≤ 4096) :
    ∃ (bb : BoundingBox) (l : List QPoint),
      s.get_bounding_box c r = .ok bb ∧ s.getPoints c (intToFloat r) true = .ok l ∧
      ((∃ p : QPoint, InEnumerationRange s bb p ∧ CenterWithinRadius s c r p) →
        (∀ p : QPoint, p ∈ l ↔ InEnumerationRange s bb p ∧ CenterWithinRadius s c r p) ∧
        l.Pairwise LexLt) ∧
      ((¬ ∃ p : QPoint, InEnumerationRange s bb p ∧ CenterWithinRadius s c r p) →
        l = [⟨c.x.tdiv s.m_cell_width, c.y.tdiv s.m_cell_height⟩]) := by
  obtain ⟨bb, hbb⟩ : ∃ bb, s.get_bounding_box c r = .ok bb :=
    ⟨_, get_bounding_box_in_bounds s hcw hch hnh hnv hex hey c r hx0 hx hy0 hy hr⟩
  have hconv : floatToInt (intToFloat r) = r := floatToInt_intToFloat_of_le r hr (by omega)
  have hbb' : s.get_bounding_box c (floatToInt (intToFloat r)) = .ok bb := by
    rw [hconv]; exact hbb
  have hmem := mem_selectedCells_true s hcw hch hex hey c r hr hr' hx0 hx hy0 hy bb hbb
  by_cases hexi : ∃ p : QPoint, InEnumerationRange s bb p ∧ CenterWithinRadius s c r p
  · obtain ⟨p0, hp0⟩ := hexi
    have hm0 := (hmem p0).mpr hp0
    refine ⟨bb, _, hbb,
      getPoints_of_selected_ne_nil s c _ true bb hbb' (List.ne_nil_of_mem hm0), ?_, ?_⟩
    · intro _
      exact ⟨hmem, pairwise_selectedCells s bb c _ true⟩
    · intro hno
      exact absurd ⟨p0, hp0⟩ hno
  · have hnil : selectedCells s bb c (intToFloat r) true = [] := by
      rw [List.eq_nil_iff_forall_not_mem]
      intro p hp
      exact hexi ⟨p, (hmem p).mp hp⟩
    have hc := toHashMapCoordinates_of_lt s hcw hch hnh hnv c hx hy
    refine ⟨bb, _, hbb, getPoints_of_selected_nil s c _ true bb hbb' hnil _ hc, ?_, ?_⟩
    · intro h
      exact absurd h hexi
    · intro _
      rfl

theorem getPoints_with_center_check_witness :
    0 < exampleGrid.m_cell_width ∧ 0 < exampleGrid.m_cell_height ∧
    0 < exampleGrid.m_horizontal_cell_count ∧ 0 < exampleGrid.m_vertical_cell_count ∧
    exampleGrid.m_horizontal_cell_count * exampleGrid.m_cell_width ≤ 2 ^ 24 ∧
    exampleGrid.m_vertical_cell_count * exampleGrid.m_cell_height ≤ 2 ^ 24 ∧
    (0 : Int) ≤ 0 ∧ (0 : Int) < exampleGrid.m_horizontal_cell_count * exampleGrid.m_cell_width ∧
    (0 : Int) ≤ 0 ∧ (0 : Int) < exampleGrid.m_vertical_cell_count * exampleGrid.m_cell_height ∧
    (0 : Int) ≤ 1 ∧ (1 : Int) ≤ 4096 ∧
    ∃ (bb : BoundingBox) (l : List QPoint),
      exampleGrid.get_bounding_box ⟨0, 0⟩ 1 = .ok bb ∧
      exampleGrid.getPoints ⟨0, 0⟩ (intToFloat 1) true = .ok l ∧
      ((∃ p : QPoint, InEnumerationRange exampleGrid bb p ∧
          CenterWithinRadius exampleGrid ⟨0, 0⟩ 1 p) →
        (∀ p : QPoint, p ∈ l ↔ InEnumerationRange exampleGrid bb p ∧
          CenterWithinRadius exampleGrid ⟨0, 0⟩ 1 p) ∧
        l.Pairwise LexLt) ∧
      ((¬ ∃ p : QPoint, InEnumerationRange exampleGrid bb p ∧
          CenterWithinRadius exampleGrid ⟨0, 0⟩ 1 p) →
        l = [⟨(0 : Int).tdiv exampleGrid.m_cell_width,
              (0 : Int).tdiv exampleGrid.m_cell_height⟩]) :=
  ⟨by decide, by decide, by decide, by decide, by decide, by decide, by decide, by decide,
    by decide, by decide, by decide, by decide,
    getPoints_with_center_check exampleGrid (by decide) (by decide) (by decide)
      (by decide) (by decide) (by decide) ⟨0, 0⟩ (by decide) (by decide) (by decide)
      (by decide) 1 (by decide) (by decide)⟩

/-- C17. The iteration range of `getPoints` coincides with the inclusive
bounding box: whenever `get_bounding_box(center, radius)` returns `bb`,
`min(horizontalCellCount, bb.max.x + 1) = bb.max.x + 1` and
`min(verticalCellCount, bb.max.y + 1) = bb.max.y + 1`, the values of the two
loop variables are exactly `bb.min.x .. bb.max.x` and `bb.min.y .. bb.max.y`,
the cells the loops visit (those pushed without center check) are exactly the
`(x, y)` with `bb.min.x <= x <= bb.max.x` and `bb.min.y <= y <= bb.max.y`, and
no cell with `x > bb.max.x` or `y > bb.max.y` is pushed, with the center check
or without, whatever the `float` radius of the check. -/
theorem getPoints_range_is_inclusive_box (s : SpatialHashMap T) (c : QPoint) (r : Int)
    (bb : BoundingBox) (hbb : s.get_bounding_box c r = .ok bb) :
    min s.m_horizontal_cell_count (bb.max.x + 1) = bb.max.x + 1 ∧
    min s.m_vertical_cell_count (bb.max.y + 1) = bb.max.y + 1 ∧
    (∀ x : Int, x ∈ loopRange bb.min.x (min s.m_horizontal_cell_count (bb.max.x + 1)) ↔
      bb.min.x ≤ x ∧ x ≤ bb.max.x) ∧
    (∀ y : Int, y ∈ loopRange bb.min.y (min s.m_vertical_cell_count (bb.max.y + 1)) ↔
      bb.min.y ≤ y ∧ y ≤ bb.max.y) ∧
    (∀ (f : ℚ) (p : QPoint), p ∈ selectedCells s bb c f false ↔
      (bb.min.x ≤ p.x ∧ p.x ≤ bb.max.x) ∧ (bb.min.y ≤ p.y ∧ p.y ≤ bb.max.y)) ∧
    (∀ (f : ℚ) (cc : Bool) (p : QPoint), p ∈ selectedCells s bb c f cc →
      p.x ≤ bb.max.x ∧ p.y ≤ bb.max.y) := by
  obtain ⟨_, _, _, _, hx, hy⟩ := get_bounding_box_ok s c r bb hbb
  have e1 : min s.m_horizontal_cell_count (bb.max.x + 1) = bb.max.x + 1 :=
    min_eq_right (by omega)
  have e2 : min s.m_vertical_cell_count (bb.max.y + 1) = bb.max.y + 1 :=
    min_eq_right (by omega)
  refine ⟨e1, e2, ?_, ?_, ?_, ?_⟩
  · intro x
    rw [mem_loopRange, e1, Int.lt_add_one_iff]
  · intro y
    rw [mem_loopRange, e2, Int.lt_add_one_iff]
  · intro f p
    rw [mem_selectedCells_false, inEnumerationRange_iff s c r bb hbb]
  · intro f cc p hp
    obtain ⟨⟨_, h1⟩, ⟨_, h2⟩, _⟩ := (mem_selectedCells s bb c f cc p).mp hp
    rw [e1] at h1
    rw [e2] at h2
    omega

theorem getPoints_range_is_inclusive_box_witness :
    exampleGrid.get_bounding_box ⟨47, 3⟩ 12 = .ok ⟨⟨3, 0⟩, ⟨4, 1⟩⟩ ∧
    min exampleGrid.m_horizontal_cell_count ((4 : Int) + 1) = (4 : Int) + 1 ∧
    min exampleGrid.m_vertical_cell_count ((1 : Int) + 1) = (1 : Int) + 1 ∧
    (∀ x : Int, x ∈ loopRange 3 (min exampleGrid.m_horizontal_cell_count ((4 : Int) + 1)) ↔
      (3 : Int) ≤ x ∧ x ≤ 4) ∧
    (∀ y : Int, y ∈ loopRange 0 (min exampleGrid.m_vertical_cell_count ((1 : Int) + 1)) ↔
      (0 : Int) ≤ y ∧ y ≤ 1) ∧
    (∀ (f : ℚ) (p : QPoint), p ∈ selectedCells exampleGrid ⟨⟨3, 0⟩, ⟨4, 1⟩⟩ ⟨47, 3⟩ f false ↔
      ((3 : Int) ≤ p.x ∧ p.x ≤ 4) ∧ ((0 : Int) ≤ p.y ∧ p.y ≤ 1)) ∧
    (∀ (f : ℚ) (cc : Bool) (p : QPoint),
      p ∈ selectedCells exampleGrid ⟨⟨3, 0⟩, ⟨4, 1⟩⟩ ⟨47, 3⟩ f cc → p.x ≤ 4 ∧ p.y ≤ 1) :=
  ⟨by decide!,
    getPoints_range_is_inclusive_box exampleGrid ⟨47, 3⟩ 12 ⟨⟨3, 0⟩, ⟨4, 1⟩⟩ (by decide!)⟩

/-- C15. In every state reachable from a constructed grid by mutable `getCell`
calls (succeeding or raising, in either space), writes to payloads and `clear`
calls, `size()` is the number of distinct coordinates `c` with `initialised(c)`
true; a mutable `getCell` that succeeds on the grid cell `g` increases `size()` by
exactly 1 when `initialised(g)` was false and leaves it unchanged when it was
true. -/
theorem size_counts_initialised [Inhabited T] (s : SpatialHashMap T) (hr : Reachable s) :
    (∃ F : Finset QPoint, (∀ c : QPoint, c ∈ F ↔ s.initialised c = true) ∧
      s.size = (F.card : Int)) ∧
    (∀ (c : QPoint) (space : Space) (g : QPoint) (v : T),
      s.toSpace c space = .ok g → (s.getCell c space).1 = .ok v →
        (s.initialised g = false → (s.getCell c space).2.size = s.size + 1) ∧
        (s.initialised g = true → (s.getCell c space).2.size = s.size)) := by
  have hs := sameKeys_of_reachable hr
  have hu := uniqueKeys_of_reachable hr
  constructor
  · refine ⟨(keys s.m_initialised_cells).toFinset, ?_, ?_⟩
    · intro c
      rw [List.mem_toFinset, ← isSome_find_iff_mem_keys]
      rfl
    · have hsame : (keys s.m_initialised_cells).toFinset = (keys s.cells).toFinset := by
        ext c
        rw [List.mem_toFinset, List.mem_toFinset, ← isSome_find_iff_mem_keys,
          ← isSome_find_iff_mem_keys, hs c]
      rw [hsame, List.toFinset_card_of_nodup hu.1]
      simp [size, keys]
  · intro c space g v hts hok
    have hin : g.x < s.m_horizontal_cell_count ∧ g.y < s.m_vertical_cell_count := by
      by_contra hb
      have hout : s.m_horizontal_cell_count ≤ g.x ∨ s.m_vertical_cell_count ≤ g.y := by
        omega
      rw [getCell_of_out_of_range s c g space hts hout] at hok
      cases hok
    constructor
    · intro hi
      rw [getCell_of_not_initialised s c g space hs hts hin.1 hin.2 hi]
      exact size_init_cell_of_not_initialised s g hs hi
    · intro hi
      obtain ⟨_, _, hg⟩ := getCell_of_initialised s c g space hs hts hin.1 hin.2 hi
      rw [hg]

theorem size_counts_initialised_witness :
    Reachable exampleGridTouched ∧
    ((∃ F : Finset QPoint, (∀ c : QPoint, c ∈ F ↔ exampleGridTouched.initialised c = true) ∧
      exampleGridTouched.size = (F.card : Int)) ∧
    (∀ (c : QPoint) (space : Space) (g : QPoint) (v : Nat),
      exampleGridTouched.toSpace c space = .ok g →
      (exampleGridTouched.getCell c space).1 = .ok v →
        (exampleGridTouched.initialised g = false →
          (exampleGridTouched.getCell c space).2.size = exampleGridTouched.size + 1) ∧
        (exampleGridTouched.initialised g = true →
          (exampleGridTouched.getCell c space).2.size = exampleGridTouched.size))) :=
  ⟨reachable_exampleGridTouched,
    size_counts_initialised exampleGridTouched reachable_exampleGridTouched⟩

/-- C19. World-space access is grid-space access on the converted coordinate:
in every state and for every world coordinate `w`, if
`toHashMapCoordinates(w)` returns `g` then the mutable `getCell(w, _WORLD)`,
the read-only `getCell(w, _WORLD)` and `ws_initialised(w)` have the result, and
the mutable one the effect on the grid, of the mutable `getCell(g, _HASHMAP)`,
the read-only `getCell(g, _HASHMAP)` and `initialised(g)`; if it raises, what
it raises is `OutOfRangeException`, all three raise it and the grid is
unchanged. -/
theorem world_access_is_converted_access [Inhabited T] (s : SpatialHashMap T) (w : QPoint) :
    match s.toHashMapCoordinates w with
    | .ok g =>
      s.getCell w ._WORLD = s.getCell g ._HASHMAP ∧
      s.getCellConst w ._WORLD = s.getCellConst g ._HASHMAP ∧
      s.ws_initialised w = .ok (s.initialised g)
    | .error e =>
      e = .OutOfRangeException ∧
      s.getCell w ._WORLD = (.error .OutOfRangeException, s) ∧
      s.getCellConst w ._WORLD = .error .OutOfRangeException ∧
      s.ws_initialised w = .error .OutOfRangeException := by
  cases h : s.toHashMapCoordinates w with
  | ok g =>
    simp only
    refine ⟨?_, ?_, ?_⟩
    · simp only [getCell, toSpace, h]
    · simp only [getCellConst, toSpace, h]
    · simp only [ws_initialised, h]
  | error e =>
    have he := toHashMapCoordinates_error s w e h
    simp only
    refine ⟨he, ?_, ?_, ?_⟩
    · simp only [getCell, toSpace, h, he]
    · simp only [getCellConst, toSpace, h, he]
    · simp only [ws_initialised, h, he]

/-- C20. Frame of the mutable `getCell`: in every state, a call
`getCell(c, space)` leaves the four dimensions unchanged; when the coordinate
converts to the grid cell `g`, `initialised(d)` and the payload stored for `d`
are the same before and after the call for every grid coordinate `d` other
than `g`; and a call whose conversion raises, or that raises
`OutOfRangeException`, leaves the grid exactly as it was. -/
theorem getCell_frame [Inhabited T] (s : SpatialHashMap T) (c : QPoint) (space : Space) :
    ((s.getCell c space).2.m_cell_width = s.m_cell_width ∧
     (s.getCell c space).2.m_cell_height = s.m_cell_height ∧
     (s.getCell c space).2.m_horizontal_cell_count = s.m_horizontal_cell_count ∧
     (s.getCell c space).2.m_vertical_cell_count = s.m_vertical_cell_count) ∧
    (∀ g : QPoint, s.toSpace c space = .ok g → ∀ d : QPoint, d ≠ g →
      (s.getCell c space).2.initialised d = s.initialised d ∧
      find (s.getCell c space).2.cells d = find s.cells d) ∧
    (∀ e : Failure, s.toSpace c space = .error e → (s.getCell c space).2 = s) ∧
    ((s.getCell c space).1 = .error .OutOfRangeException → (s.getCell c space).2 = s) := by
  have hcases : (s.getCell c space).2 = s ∨
      ∃ g, s.toSpace c space = .ok g ∧ (s.getCell c space).2 = s.init_cell g ∧
        (s.getCell c space).1 ≠ .error .OutOfRangeException := by
    unfold getCell
    cases hts : s.toSpace c space with
    | error e => exact Or.inl rfl
    | ok g =>
      simp only
      split_ifs with hb hi
      · right
        refine ⟨g, rfl, ?_, ?_⟩ <;> split <;> simp
      · left
        split <;> rfl
      · exact Or.inl rfl
  refine ⟨?_, ?_, ?_, ?_⟩
  · rcases hcases with h | ⟨g, _, h, _⟩ <;> rw [h] <;> exact ⟨rfl, rfl, rfl, rfl⟩
  · intro g hts d hd
    rcases hcases with h | ⟨g', hts', h, _⟩
    · rw [h]
      exact ⟨rfl, rfl⟩
    · rw [hts] at hts'
      cases hts'
      rw [h]
      have hgd : g ≠ d := fun e => hd e.symm
      exact ⟨by simp only [initialised, init_cell, find_emplace_of_ne _ _ _ _ hgd],
        find_emplace_of_ne _ _ _ _ hgd⟩
  · intro e hts
    simp only [getCell, hts]
  · intro herr
    rcases hcases with h | ⟨_, _, _, hne⟩
    · exact h
    · exact absurd herr hne

end SpatialHashMap
